import Mathlib

/-!
# btcli: option compiler and configuration loader

A shallow embedding of `pkg/evaluator/cbt/evaluator.go` (the commands `lookup`
and `read` and their helpers), `api/application/rows.go` and
`api/config/config.go`, followed by theorems about them.

Conventions of the embedding:

* a Go `string` is a `List Char` (`Str`); every separator the code looks for
  (`=`, `,`, `:`, newline) is ASCII, so cutting at a character is cutting at
  the byte the Go code cuts at;
* a Go `map[string]string` is an association list with unique keys (`GoMap`);
  reading a missing key gives the empty string, as in Go;
* machine integers are `Int`/`Nat`, wrapped explicitly where Go arithmetic wraps;
* a function with side effects returns the list of effects it performs, in
  order (`Effect`): writes to a stream, calls of the storage client, calls of
  the printer;
* the Go standard library, the Bigtable SDK and `golang.org/x/oauth2` are
  outside the repository: the functions the code calls are modelled from
  their documented behaviour in the namespaces `strings`, `strconv`, `time`,
  `os`, `bufio` and `bigtable`, and (for the reusing token source) in `config`.
-/

set_option autoImplicit false

namespace Btcli

/-- A Go string. -/
abbrev Str := List Char

/-- Go `int64` arithmetic: the representative of `x` modulo `2^64` in
`[-2^63, 2^63)`. -/
def wrapInt64 (x : Int) : Int := (x + 2 ^ 63) % 2 ^ 64 - 2 ^ 63

/-- A Go `map[string]string`: an association list, keys unique by construction
(`GoMap.set`). -/
abbrev GoMap := List (Str × Str)

namespace GoMap

/-- The comma-ok lookup `v, ok := m[k]`. -/
def find? (m : GoMap) (k : Str) : Option Str :=
  List.lookup k m

/-- The plain lookup `m[k]`: the zero value `""` when the key is absent. -/
def get (m : GoMap) (k : Str) : Str :=
  match m.find? k with
  | some v => v
  | none => []

/-- The assignment `m[k] = v`. -/
def set (m : GoMap) (k v : Str) : GoMap :=
  (k, v) :: m.filter (fun p => p.1 != k)

/-- The keys of the map. -/
def keys (m : GoMap) : List Str :=
  m.map Prod.fst

end GoMap

/-! ## Go standard library: `strings` -/

namespace strings

/-- The result of `strings.Index(s, string(c))` for a one-byte separator `c`:
the position of the first `c`, `none` where Go returns `-1`. -/
def Index (s : Str) (c : Char) : Option Nat :=
  match s with
  | [] => none
  | x :: xs => if x = c then some 0 else (Index xs c).map (· + 1)

/-- The call `strings.Split(s, string(sep))` for a one-byte separator: the
pieces between the separators; one empty piece for the empty string. -/
def Split : Str → Char → List Str
  | [], _ => [[]]
  | c :: cs, sep =>
    if c = sep then [] :: Split cs sep
    else
      match Split cs sep with
      | [] => [[c]]
      | x :: xs => (c :: x) :: xs

/-- The call `strings.SplitN(s, string(sep), 2)`: cut at the first separator,
or the whole string as the only piece. -/
def SplitN2 (s : Str) (sep : Char) : List Str :=
  match Index s sep with
  | none => [s]
  | some i => [s.take i, s.drop (i + 1)]

/-- The predicate `unicode.IsSpace`: the white space `strings.TrimSpace` removes. -/
def isSpace (c : Char) : Bool :=
  let n := c.toNat
  n == 0x09 || n == 0x0A || n == 0x0B || n == 0x0C || n == 0x0D || n == 0x20 ||
  n == 0x85 || n == 0xA0 || n == 0x1680 || (0x2000 ≤ n && n ≤ 0x200A) ||
  n == 0x2028 || n == 0x2029 || n == 0x202F || n == 0x205F || n == 0x3000

/-- The function `strings.TrimSpace`: leading and trailing white space removed. -/
def TrimSpace (s : Str) : Str :=
  ((s.dropWhile isSpace).reverse.dropWhile isSpace).reverse

end strings

/-! ## Go standard library: `strconv.ParseInt(s, 0, 64)` -/

namespace strconv

/-- The two causes of a `*strconv.NumError`. -/
inductive ErrKind where
  | ErrSyntax
  | ErrRange
  deriving DecidableEq, Repr

/-- The error value `*strconv.NumError`: function name, offending text, cause. -/
structure NumError where
  Func : Str
  Num : Str
  Err : ErrKind
  deriving DecidableEq, Repr

/-- The helper `lower(c)`: `c | ('x' - 'X')`, on the byte value. -/
def lower (c : Nat) : Nat := c ||| 0x20

/-- The value of the digit `c` in `ParseUint`, `none` where the Go code takes
the `default:` branch (not a digit or letter). -/
def digitVal (c : Char) : Option Nat :=
  let n := c.toNat
  if 48 ≤ n ∧ n ≤ 57 then some (n - 48)
  else if 97 ≤ lower n ∧ lower n ≤ 122 then some (lower n - 97 + 10)
  else none

/-- The digit loop of `ParseUint`: `n` is the value so far, `us` whether an
underscore was seen. Returns the cause of the error, or the value and `us`. -/
def parseUintLoop (base : Nat) (base0 : Bool) (cutoff maxVal : Nat) :
    List Char → Nat → Bool → Except ErrKind (Nat × Bool)
  | [], n, us => .ok (n, us)
  | c :: cs, n, us =>
    if c = '_' ∧ base0 = true then parseUintLoop base base0 cutoff maxVal cs n true
    else
      match digitVal c with
      | none => .error .ErrSyntax
      | some d =>
        if d ≥ base then .error .ErrSyntax
        else if n ≥ cutoff then .error .ErrRange
        else
          let n0 := (n * base) % 2 ^ 64
          let n1 := (n0 + d) % 2 ^ 64
          if n1 < n0 ∨ n1 > maxVal then .error .ErrRange
          else parseUintLoop base base0 cutoff maxVal cs n1 us

/-- The sentinel of `underscoreOK`: what the previous character was. -/
inductive Prev where
  | start
  | digit
  | underscore
  | other
  deriving DecidableEq, Repr

/-- The loop of `underscoreOK` over the number proper. -/
def underscoreLoop (hex : Bool) : List Char → Prev → Bool
  | [], i => i != Prev.underscore
  | c :: cs, i =>
    let n := c.toNat
    if (48 ≤ n ∧ n ≤ 57) ∨ (hex = true ∧ 97 ≤ lower n ∧ lower n ≤ 102) then
      underscoreLoop hex cs Prev.digit
    else if c = '_' then
      if i ≠ Prev.digit then false else underscoreLoop hex cs Prev.underscore
    else if i = Prev.underscore then false
    else underscoreLoop hex cs Prev.other

/-- The check `underscoreOK(s)`: underscores only between digits or between a
base marker and a digit. -/
def underscoreOK (s : Str) : Bool :=
  let s1 := match s with
    | c :: cs => if c = '-' ∨ c = '+' then cs else s
    | [] => s
  match s1 with
  | '0' :: m :: rest =>
    if lower m.toNat = 98 ∨ lower m.toNat = 111 ∨ lower m.toNat = 120 then
      underscoreLoop (lower m.toNat == 120) rest Prev.digit
    else underscoreLoop false s1 Prev.start
  | _ => underscoreLoop false s1 Prev.start

/-- The base and the digits left after the base marker, for `base == 0`. -/
def splitBase (s : Str) : Nat × Str :=
  match s with
  | '0' :: rest =>
    match rest with
    | m :: d :: ds =>
      if lower m.toNat = 98 then (2, d :: ds)
      else if lower m.toNat = 111 then (8, d :: ds)
      else if lower m.toNat = 120 then (16, d :: ds)
      else (8, rest)
    | _ => (8, rest)
  | _ => (10, s)

/-- The maximal `uint64`. -/
def maxUint64 : Nat := 2 ^ 64 - 1

/-- The call `strconv.ParseUint(s, 0, 64)`, as a Go pair (value, error cause).
The `NumError` is built by the caller. -/
def ParseUint (s : Str) : Nat × Option ErrKind :=
  if s = [] then (0, some .ErrSyntax)
  else
    let (base, digits) := splitBase s
    let cutoff := maxUint64 / base + 1
    let maxVal := maxUint64
    match parseUintLoop base true cutoff maxVal digits 0 false with
    | .error .ErrSyntax => (0, some .ErrSyntax)
    | .error .ErrRange => (maxVal, some .ErrRange)
    | .ok (n, us) =>
      if us = true ∧ underscoreOK s = false then (0, some .ErrSyntax)
      else (n, none)

/-- The call `strconv.ParseInt(s, 0, 64)`: the value, or the `NumError`. -/
def ParseInt (s : Str) : Except NumError Int :=
  let fnParseInt : Str := ("ParseInt").toList
  if s = [] then .error ⟨fnParseInt, s, .ErrSyntax⟩
  else
    let neg : Bool := s.head? = some '-'
    let s1 := if s.head? = some '+' ∨ s.head? = some '-' then s.tail else s
    match ParseUint s1 with
    | (_, some .ErrSyntax) => .error ⟨fnParseInt, s, .ErrSyntax⟩
    | (un, _) =>
      let cutoff : Nat := 2 ^ 63
      if neg = false ∧ un ≥ cutoff then .error ⟨fnParseInt, s, .ErrRange⟩
      else if neg = true ∧ un > cutoff then .error ⟨fnParseInt, s, .ErrRange⟩
      else if neg = true then .ok (-(un : Int)) else .ok (un : Int)

end strconv

/-! ## Go standard library: `time` -/

namespace time

/-- A `time.Time` without monotonic reading: `sec` is the number of seconds
since January 1, year 1, 00:00:00 UTC (an `int64`), `nsec` the nanoseconds. The
location does not take part in `IsZero`. -/
structure Time where
  sec : Int
  nsec : Nat
  deriving DecidableEq, Repr

/-- The constant `unixToInternal`: seconds from year 1 to 1970. -/
def unixToInternal : Int := 62135596800

/-- The zero value, `var t time.Time`. -/
def zero : Time := ⟨0, 0⟩

/-- The call `time.Unix(sec, 0)`. -/
def Unix (sec : Int) : Time := ⟨wrapInt64 (sec + unixToInternal), 0⟩

/-- The method `t.IsZero()`. -/
def Time.IsZero (t : Time) : Bool := t.sec == 0 && t.nsec == 0

/-- The method `t.Unix()`: seconds since January 1, 1970 UTC. -/
def Time.UnixSeconds (t : Time) : Int := wrapInt64 (t.sec - unixToInternal)

/-- The method `t.Add(d)` for a duration `d` of a whole number of seconds; the
seconds wrap as `int64` addition does (later Go releases saturate instead: the
two differ only for times within `d` seconds of the ends of the range). -/
def Time.AddSeconds (t : Time) (d : Int) : Time := ⟨wrapInt64 (t.sec + d), t.nsec⟩

/-- The method `t.Before(u)`. -/
def Time.Before (t u : Time) : Bool :=
  decide (t.sec < u.sec) || (t.sec == u.sec && decide (t.nsec < u.nsec))

end time

/-! ## Bigtable SDK values

The constructors of the SDK are kept symbolic: the code only builds these
values and hands them to the client. -/

namespace bigtable

/-- A `bigtable.RowRange`, by the constructor that built it. -/
inductive RowRange where
  /-- The zero value `var rr bigtable.RowRange`: the unbounded range. -/
  | zero
  /-- The half-open range `NewRange(begin, end)`. -/
  | NewRange (start limit : Str)
  /-- The open-ended range `InfiniteRange(start)`. -/
  | InfiniteRange (start : Str)
  /-- All keys with the given beginning, `PrefixRange(p)`. -/
  | PrefixRange (pfx : Str)
  deriving DecidableEq, Repr

/-- A `bigtable.Filter`, by the constructor that built it. -/
inductive Filter where
  | RowKeyFilter (pattern : Str)
  | FamilyFilter (pattern : Str)
  | LatestNFilter (n : Int)
  | TimestampRangeFilter (startTime endTime : time.Time)
  | ValueFilter (pattern : Str)
  | ChainFilters (sub : List Filter)
  deriving Repr

/-- A `bigtable.ReadOption`. -/
inductive ReadOption where
  | RowFilter (f : Filter)
  | LimitRows (limit : Int)
  deriving Repr

end bigtable

/-! ## `pkg/evaluator/cbt/evaluator.go` -/

namespace cbt

open bigtable

/-- A Go `error` value: a `*strconv.NumError`, or an error of a collaborator
known by its message only. -/
inductive GoError where
  | num (e : strconv.NumError)
  | other (msg : Str)
  deriving DecidableEq, Repr

/-- A `*domain.Row` handed back by the storage client: an opaque handle. -/
structure Row where
  id : Nat
  deriving DecidableEq, Repr

/-- The result of a read of the storage client: a value with a `Rows` field. -/
structure Bunch where
  Rows : List Row
  deriving DecidableEq, Repr

/-- The storage client `bt.Client`, as far as `DoLookup` and `DoRead` use it. -/
structure Client where
  Get : Str → Str → List ReadOption → Except GoError Bunch
  GetRows : Str → RowRange → List ReadOption → Except GoError Bunch

/-- The streams the commands write to. -/
inductive Stream where
  /-- The process stream `os.Stderr`. -/
  | osStderr
  /-- The stream `client.ErrStream()`. -/
  | ErrStream
  /-- The stream `client.OutStream()`. -/
  | OutStream
  deriving DecidableEq, Repr

/-- What a command does, in order. -/
inductive Effect where
  /-- A write of a text whose operands are strings. -/
  | write (w : Stream) (text : Str)
  /-- A write `Fprintf(w, before + "%v" + after, err)` of an error value. -/
  | writeErr (w : Stream) (before : Str) (err : GoError) (after : Str)
  /-- The call `client.Get(ctx, table, key, ro...)`. -/
  | Get (table key : Str) (ro : List ReadOption)
  /-- The call `client.GetRows(ctx, table, rr, ro...)`. -/
  | GetRows (table : Str) (rr : RowRange) (ro : List ReadOption)
  /-- The call `p.PrintRow(row)` of a printer with the given decode settings. -/
  | PrintRow (decodeType : Str) (decodeColumnType : GoMap) (row : Row)
  /-- The call `p.PrintRows(rows)` of a printer with the given decode settings. -/
  | PrintRows (decodeType : Str) (decodeColumnType : GoMap) (rows : List Row)
  /-- A run-time panic: index out of range. -/
  | indexOutOfRange
  deriving Repr

/-- The option loop of `DoLookup` (lines 50-68): the map built from `opts`, or
the text written before the command returns. -/
def lookupOpts : GoMap → List Str → Except Str GoMap
  | parsed, [] => .ok parsed
  | parsed, opt :: rest =>
    match strings.Index opt '=' with
    | none => .error (("Invalid option: ").toList ++ opt ++ ("\n").toList)
    | some i =>
      let k := opt.take i
      let v := opt.drop (i + 1)
      if k = ("decode").toList ∨ k = ("decode_columns").toList then
        lookupOpts (parsed.set k v) rest
      else if k = ("version").toList then
        lookupOpts (parsed.set k v) rest
      else .error (("Unknown option: ").toList ++ opt ++ ("\n").toList)

/-- The keys of the second `case` of the switch in `DoRead` (line 115). -/
def readKeys : List Str :=
  [("count").toList, ("start").toList, ("end").toList, ("prefix").toList,
   ("version").toList, ("family").toList, ("value").toList, ("from").toList,
   ("to").toList]

/-- The option loop of `DoRead` (lines 100-118): the map built from `opts`, or
the text written to `os.Stderr` before the command returns. -/
def readOpts : GoMap → List Str → Except Str GoMap
  | parsed, [] => .ok parsed
  | parsed, opt :: rest =>
    match strings.Index opt '=' with
    | none => .error (("Invalid option: ").toList ++ opt ++ ("\n").toList)
    | some i =>
      let key := opt.take i
      let val := opt.drop (i + 1)
      if key = ("decode").toList ∨ key = ("decode_columns").toList then
        readOpts (parsed.set key val) rest
      else if key ∈ readKeys then
        readOpts (parsed.set key val) rest
      else .error (("Unknown option: ").toList ++ opt ++ ("\n").toList)

/-- The function `rowRange` (lines 152-164). -/
def rowRange (parsedArgs : GoMap) : Except GoError RowRange :=
  let start := parsedArgs.get ("start").toList
  let limit := parsedArgs.get ("end").toList
  let rr : RowRange :=
    if limit ≠ [] then RowRange.NewRange start limit
    else if start ≠ [] then RowRange.InfiniteRange start
    else RowRange.zero
  let pfx := parsedArgs.get ("prefix").toList
  let rr : RowRange := if pfx ≠ [] then RowRange.PrefixRange pfx else rr
  .ok rr

/-- The filters of `readOption` (lines 172-206): the value of `fils` when line
208 is reached, or the error returned before. Each assignment of the Go code
is one `let`; a `return nil, err` ends the chain of `bind`s. -/
def derivedFilters (parsedArgs : GoMap) : Except strconv.NumError (List Filter) :=
  let fils : List Filter := []
  let regex := parsedArgs.get ("regex").toList
  let fils := if regex ≠ [] then fils ++ [Filter.RowKeyFilter regex] else fils
  let family := parsedArgs.get ("family").toList
  let fils :=
    if family ≠ [] then
      fils ++ [Filter.FamilyFilter (("^").toList ++ family ++ ("$").toList)]
    else fils
  let version := parsedArgs.get ("version").toList
  (if version ≠ [] then
    (strconv.ParseInt version).map fun n => fils ++ [Filter.LatestNFilter n]
   else .ok fils).bind fun fils =>
  let startTime := time.zero
  let endTime := time.zero
  let lo := parsedArgs.get ("from").toList
  (if lo ≠ [] then (strconv.ParseInt lo).map fun t => time.Unix t
   else .ok startTime).bind fun startTime =>
  let hi := parsedArgs.get ("to").toList
  (if hi ≠ [] then (strconv.ParseInt hi).map fun t => time.Unix t
   else .ok endTime).bind fun endTime =>
  let fils :=
    if (!startTime.IsZero || !endTime.IsZero) = true then
      fils ++ [Filter.TimestampRangeFilter startTime endTime]
    else fils
  let value := parsedArgs.get ("value").toList
  let fils := if value ≠ [] then fils ++ [Filter.ValueFilter value] else fils
  .ok fils

/-- The function `readOption` (lines 166-223); its lines 172-206, which build
`fils`, are `derivedFilters`. `int` is taken to be 64 bits wide, so `int(n)`
is `n`. -/
def readOption (parsedArgs : GoMap) : Except strconv.NumError (List ReadOption) :=
  let opts : List ReadOption := []
  -- filters
  (derivedFilters parsedArgs).bind fun fils =>
  let opts :=
    match fils with
    | [] => opts
    | [f] => opts ++ [ReadOption.RowFilter f]
    | _ :: _ :: _ => opts ++ [ReadOption.RowFilter (Filter.ChainFilters fils)]
  -- isolated readOption
  let count := parsedArgs.get ("count").toList
  if count ≠ [] then
    (strconv.ParseInt count).bind fun n => .ok (opts ++ [ReadOption.LimitRows n])
  else .ok opts

/-- The function `decodeGlobalOption` (lines 225-230); `env` is the process
environment. -/
def decodeGlobalOption (env parsedArgs : GoMap) : Str :=
  let d := parsedArgs.get ("decode").toList
  if d ≠ [] then d else env.get ("BTCLI_DECODE_TYPE").toList

/-- The loop of `decodeColumnOption` (lines 240-246). -/
def decodeColumnLoop : GoMap → List Str → GoMap
  | ret, [] => ret
  | ret, d :: ds =>
    match strings.SplitN2 d ':' with
    | [c, t] => decodeColumnLoop (ret.set c t) ds
    | _ => decodeColumnLoop ret ds

/-- The function `decodeColumnOption` (lines 232-248). -/
def decodeColumnOption (parsedArgs : GoMap) : GoMap :=
  let arg := parsedArgs.get ("decode_columns").toList
  if arg.length = 0 then []
  else decodeColumnLoop [] (strings.Split arg ',')

/-- The function `DoLookup` (lines 41-90). -/
def DoLookup (client : Client) (env : GoMap) (args : List Str) : List Effect :=
  match args with
  | table :: key :: opts =>
    match lookupOpts [] opts with
    | .error msg => [Effect.write Stream.ErrStream msg]
    | .ok parsed =>
      match readOption parsed with
      | .error err =>
        [Effect.writeErr Stream.ErrStream ("Invalid options: ").toList (GoError.num err) ("\n").toList]
      | .ok ro =>
        Effect.Get table key ro ::
          match client.Get table key ro with
          | .error err => [Effect.writeErr Stream.OutStream [] err []]
          | .ok b =>
            match b.Rows with
            | [] => [Effect.indexOutOfRange]
            | row :: _ =>
              [Effect.PrintRow (decodeGlobalOption env parsed) (decodeColumnOption parsed) row]
  | _ => [Effect.write Stream.ErrStream ("Invalid args: lookup <table> <row>\n").toList]

/-- The function `DoRead` (lines 92-150). -/
def DoRead (client : Client) (env : GoMap) (args : List Str) : List Effect :=
  match args with
  | [] => [Effect.write Stream.ErrStream ("Invalid args: read <table> [args ...]\n").toList]
  | table :: opts =>
    match readOpts [] opts with
    | .error msg => [Effect.write Stream.osStderr msg]
    | .ok parsed =>
      if (parsed.get ("start").toList ≠ [] ∨ parsed.get ("end").toList ≠ [])
          ∧ parsed.get ("prefix").toList ≠ [] then
        [Effect.write Stream.ErrStream
          ("\"start\"/\"end\" may not be mixed with \"prefix\"").toList]
      else
        match rowRange parsed with
        | .error err =>
          [Effect.writeErr Stream.ErrStream ("Invlaid range: ").toList err ("\n").toList]
        | .ok rr =>
          match readOption parsed with
          | .error err =>
            [Effect.writeErr Stream.ErrStream ("Invalid options: ").toList (GoError.num err)
              ("\n").toList]
          | .ok ro =>
            Effect.GetRows table rr ro ::
              match client.GetRows table rr ro with
              | .error err => [Effect.writeErr Stream.ErrStream [] err ("\n").toList]
              | .ok b =>
                [Effect.PrintRows (decodeGlobalOption env parsed) (decodeColumnOption parsed)
                  b.Rows]

/-- A storage client for the examples: no row for `Get`, one row for `GetRows`. -/
def sampleClient : Client :=
  { Get := fun _ _ _ => .ok ⟨[]⟩, GetRows := fun _ _ _ => .ok ⟨[⟨1⟩]⟩ }

end cbt

/-! ## `api/application/rows.go` -/

namespace application

open bigtable cbt

/-- How a call of a method of `RowsInteractor` ends. -/
inductive Outcome (α : Type) where
  /-- The method returns a value and a nil error. -/
  | value (a : α)
  /-- The method returns a nil value and an error. -/
  | error (err : GoError)
  /-- The method panics: index out of range. -/
  | indexOutOfRange
  deriving Repr

/-- The repository `repository.Bigtable`, as far as `RowsInteractor` uses it. -/
structure Repository where
  Get : Str → Str → Except GoError Bunch
  GetRows : Str → RowRange → List ReadOption → Except GoError Bunch

/-- The method `RowsInteractor.GetRow` (lines 23-30). -/
def GetRow (repository : Repository) (table key : Str) : Outcome Row :=
  match repository.Get table key with
  | .error err => Outcome.error err
  | .ok tbl =>
    match tbl.Rows with
    | [] => Outcome.indexOutOfRange
    | row :: _ => Outcome.value row

/-- The method `RowsInteractor.GetRows` (lines 32-39). -/
def GetRows (repository : Repository) (table : Str) (rr : RowRange)
    (opts : List ReadOption) : Outcome (List Row) :=
  match repository.GetRows table rr opts with
  | .error err => Outcome.error err
  | .ok tbl => Outcome.value tbl.Rows

/-- A repository for the examples: every read succeeds with no row. -/
def emptyRepository : Repository :=
  { Get := fun _ _ => .ok ⟨[]⟩, GetRows := fun _ _ _ => .ok ⟨[]⟩ }

end application

/-! ## Go standard library: `os` and `bufio` -/

namespace os

/-- The call `os.Getenv(k)` on the environment `env`. -/
def Getenv (env : GoMap) (k : Str) : Str := env.get k

/-- The call `os.Setenv(k, v)` for a well-formed name `k`, its error dropped as
the callers do: a value holding a NUL byte is refused and the environment is
left as it was. -/
def Setenv (env : GoMap) (k v : Str) : GoMap :=
  if (Char.ofNat 0) ∈ v then env else env.set k v

end os

namespace bufio

/-- The constant `bufio.MaxScanTokenSize`. -/
def MaxScanTokenSize : Nat := 64 * 1024

/-- The number of bytes of a string. -/
def byteLen (s : Str) : Nat := (s.map Char.utf8Size).sum

/-- The helper `dropCR`: one trailing carriage return removed. -/
def dropCR (s : Str) : Str :=
  if s.getLast? = some '\r' then s.dropLast else s

/-- The tokens a `bufio.Scanner` with the split function `ScanLines` yields
over the pieces of the input between newlines (the last piece is what follows
the last newline), and whether it stopped with `ErrTooLong`: a piece that does
not fit the buffer ends the scan. -/
def scanPieces : List Str → List Str × Bool
  | [] => ([], false)
  | [last] =>
    if last = [] then ([], false)
    else if byteLen last ≥ MaxScanTokenSize then ([], true)
    else ([dropCR last], false)
  | piece :: rest =>
    if byteLen piece ≥ MaxScanTokenSize then ([], true)
    else
      let (toks, long) := scanPieces rest
      (dropCR piece :: toks, long)

/-- The lines `for s.Scan() ... s.Text()` goes through over `data`, and whether
`s.Err()` is `ErrTooLong` afterwards. -/
def scanLines (data : Str) : List Str × Bool :=
  scanPieces (strings.Split data '\n')

end bufio

/-! ## `api/config/config.go` -/

namespace config

/-- An error value returned by the functions of the package. -/
inductive Error where
  /-- The error `fmt.Errorf("Reading %s: %v", filename, err)`. -/
  | Reading (filename err : Str)
  /-- The error `fmt.Errorf("Bad line in %s: %q", filename, line)`. -/
  | BadLine (filename line : Str)
  /-- The error `fmt.Errorf("Unknown key in %s: %q", filename, key)`. -/
  | UnknownKey (filename key : Str)
  /-- The error `fmt.Errorf(text)` of a fixed text. -/
  | Errorf (text : Str)
  /-- The error `bufio.ErrTooLong` of the scanner. -/
  | ErrTooLong
  deriving DecidableEq, Repr

/-- An `oauth2.Token`. -/
structure Token where
  AccessToken : Str
  TokenType : Str
  Expiry : time.Time
  deriving DecidableEq, Repr

/-- The type `gcloudCredential`. -/
structure gcloudCredential where
  AccessToken : Str
  Expiry : time.Time
  deriving DecidableEq, Repr

/-- The method `gcloudCredential.Token` (lines 90-92). -/
def gcloudCredential.Token (cred : gcloudCredential) : Token :=
  ⟨cred.AccessToken, ("Bearer").toList, cred.Expiry⟩

/-- The type `GcloudConfig`; `Project` is `Configuration.Properties.Core.Project`. -/
structure GcloudConfig where
  Project : Str
  Credential : gcloudCredential
  deriving DecidableEq, Repr

/-- The type `GcloudCmdTokenSource`. -/
structure GcloudCmdTokenSource where
  Command : Str
  Args : List Str
  deriving DecidableEq, Repr

/-- The value `oauth2.ReuseTokenSource(t, src)`: the token it starts from and
the source it asks for a new one. -/
structure ReuseTokenSource where
  t : Token
  src : GcloudCmdTokenSource
  deriving DecidableEq, Repr

/-- The type `Config`; `TokenSource` is `none` for the nil interface value. What
is written to `ErrStream` is kept in the effects. -/
structure Config where
  Project : Str
  Instance : Str
  Creds : Str
  TokenSource : Option ReuseTokenSource
  deriving DecidableEq, Repr

/-- The result of `ioutil.ReadFile`. -/
inductive FileRead where
  | data (d : Str)
  /-- An error for which `os.IsNotExist` holds. -/
  | notExist
  /-- Another error, with its text. -/
  | failed (err : Str)
  deriving DecidableEq, Repr

/-- The flags `-project`, `-instance`, `-creds` as `flag.Parse` finds them on
the command line (`none`: not given). The command line is taken to parse. -/
structure Flags where
  project : Option Str
  inst : Option Str
  creds : Option Str
  deriving DecidableEq, Repr

/-- What the package reads from outside the process. -/
structure World where
  /-- The constant `runtime.GOOS`. -/
  GOOS : Str
  /-- The call `filepath.Join(a, b)`. -/
  Join : Str → Str → Str
  /-- The call `ioutil.ReadFile(filename)`. -/
  ReadFile : Str → FileRead
  /-- The command line flags. -/
  flags : Flags
  /-- The call `exec.Command(cmd, args...).Output()`: the standard output, or
  the text of the error. -/
  Output : Str → List Str → Except Str Str
  /-- The call `json.Unmarshal(out, &gcloudConfig)` on a zero `GcloudConfig`:
  the value filled in, or the text of the error. -/
  Unmarshal : Str → Except Str GcloudConfig

/-- What the functions of the package do, in order. -/
inductive Effect where
  /-- A write to `c.ErrStream`. -/
  | write (text : Str)
  /-- The call `os.Setenv(k, v)`. -/
  | setenv (k v : Str)
  /-- A run of the subprocess. -/
  | exec (cmd : Str) (args : List Str)
  deriving DecidableEq, Repr

/-- The state the functions of the package change: the configuration, the
process environment, and the effects so far. -/
structure State where
  c : Config
  env : GoMap
  log : List Effect
  deriving DecidableEq, Repr

/-- The function `loadGcloudConfig` (lines 121-133): the effects and the result. -/
def loadGcloudConfig (w : World) (gcloudCmd : Str) (gcloudCmdArgs : List Str) :
    List Effect × Except Error GcloudConfig :=
  ([Effect.exec gcloudCmd gcloudCmdArgs],
    match w.Output gcloudCmd gcloudCmdArgs with
    | .error _ => .error (Error.Errorf ("Could not retrieve gcloud configuration").toList)
    | .ok out =>
      match w.Unmarshal out with
      | .error _ => .error (Error.Errorf ("Could not parse gcloud configuration").toList)
      | .ok gcloudConfig => .ok gcloudConfig)

/-- The method `GcloudCmdTokenSource.Token` (lines 113-119). -/
def GcloudCmdTokenSource.Token (w : World) (g : GcloudCmdTokenSource) :
    List Effect × Except Error Token :=
  match loadGcloudConfig w g.Command g.Args with
  | (effs, .error err) => (effs, .error err)
  | (effs, .ok gcloudConfig) => (effs, .ok gcloudConfig.Credential.Token)

/-- The constant `expiryDelta` of the library `golang.org/x/oauth2`, in
seconds: how much earlier than its expiry a token counts as expired. -/
def expiryDelta : Int := 10

/-- The method `(*oauth2.Token).expired` of the library, at the time `now`
(`timeNow()`): a zero expiry never expires. -/
def Token.expired (t : Token) (now : time.Time) : Bool :=
  if t.Expiry.IsZero = true then false
  else (t.Expiry.AddSeconds (-expiryDelta)).Before now

/-- The method `(*oauth2.Token).Valid` of the library, for a non-nil token. -/
def Token.Valid (t : Token) (now : time.Time) : Bool :=
  decide (t.AccessToken ≠ []) && !t.expired now

/-- The method `(*reuseTokenSource).Token` of the library `golang.org/x/oauth2`
at the time `now`, for the value built at lines 172-174: the token source
afterwards, the effects, and the result. -/
def ReuseTokenSource.Token (w : World) (now : time.Time) (s : ReuseTokenSource) :
    ReuseTokenSource × List Effect × Except Error Token :=
  if s.t.Valid now = true then (s, [], .ok s.t)
  else
    match GcloudCmdTokenSource.Token w s.src with
    | (effs, .error err) => (s, effs, .error err)
    | (effs, .ok t) => ({ s with t := t }, effs, .ok t)

/-- The name of the environment variable of the credentials file. -/
def credsVar : Str := ("GOOGLE_APPLICATION_CREDENTIALS").toList

/-- The method `Config.setFromGcloud` (lines 135-178): the state afterwards and
the error returned (`none` for `nil`). -/
def setFromGcloud (w : World) (s : State) : State × Option Error :=
  let s : State :=
    if s.c.Creds = [] then
      let s : State := { s with c := { s.c with Creds := os.Getenv s.env credsVar } }
      if s.c.Creds = [] then
        { s with log := s.log ++
            [Effect.write ("-creds flag unset, will use gcloud credential\n").toList] }
      else s
    else
      { s with env := os.Setenv s.env credsVar s.c.Creds,
               log := s.log ++ [Effect.setenv credsVar s.c.Creds] }
  let s : State :=
    if s.c.Project = [] then
      { s with log := s.log ++
          [Effect.write ("-project flag unset, will use gcloud active project\n").toList] }
    else s
  if s.c.Creds ≠ [] ∧ s.c.Project ≠ [] then (s, none)
  else
    let gcloudCmd : Str := ("gcloud").toList
    let gcloudCmd : Str :=
      if w.GOOS = ("windows").toList then gcloudCmd ++ (".cmd").toList else gcloudCmd
    let gcloudCmdArgs : List Str :=
      [("config").toList, ("config-helper").toList,
       ("--format=json(configuration.properties.core.project,credential)").toList]
    match loadGcloudConfig w gcloudCmd gcloudCmdArgs with
    | (effs, .error err) => ({ s with log := s.log ++ effs }, some err)
    | (effs, .ok gcloudConfig) =>
      let s : State := { s with log := s.log ++ effs }
      let s : State :=
        if s.c.Project = [] ∧ gcloudConfig.Project ≠ [] then
          { s with
            log := s.log ++ [Effect.write (("gcloud active project is \"").toList ++
              gcloudConfig.Project ++ ("\"\n").toList)],
            c := { s.c with Project := gcloudConfig.Project } }
        else s
      let s : State :=
        if s.c.Creds = [] then
          let src : GcloudCmdTokenSource := { Command := gcloudCmd, Args := gcloudCmdArgs }
          let ts : ReuseTokenSource := { t := gcloudConfig.Credential.Token, src := src }
          { s with c := { s.c with TokenSource := some ts } }
        else s
      (s, none)

/-- Lines 136-143 of `setFromGcloud`: the credentials path completed from the
environment variable, or exported to it. -/
def credsStep (s : State) : State :=
  if s.c.Creds = [] then
    let s : State := { s with c := { s.c with Creds := os.Getenv s.env credsVar } }
    if s.c.Creds = [] then
      { s with log := s.log ++
          [Effect.write ("-creds flag unset, will use gcloud credential\n").toList] }
    else s
  else
    { s with env := os.Setenv s.env credsVar s.c.Creds,
             log := s.log ++ [Effect.setenv credsVar s.c.Creds] }

/-- Lines 145-147 of `setFromGcloud`: the note on an empty project. -/
def projectStep (s : State) : State :=
  if s.c.Project = [] then
    { s with log := s.log ++
        [Effect.write ("-project flag unset, will use gcloud active project\n").toList] }
  else s

/-- Lines 153-156 of `setFromGcloud`: the name of the helper command. -/
def helperCmd (w : World) : Str :=
  if w.GOOS = ("windows").toList then ("gcloud").toList ++ (".cmd").toList
  else ("gcloud").toList

/-- Lines 158-159 of `setFromGcloud`: the arguments of the helper command. -/
def helperArgs : List Str :=
  [("config").toList, ("config-helper").toList,
   ("--format=json(configuration.properties.core.project,credential)").toList]

/-- Lines 166-175 of `setFromGcloud`: the project and the token source taken
from the helper's snapshot. -/
def adoptStep (w : World) (gcloudConfig : GcloudConfig) (s : State) : State :=
  let s : State :=
    if s.c.Project = [] ∧ gcloudConfig.Project ≠ [] then
      { s with
        log := s.log ++ [Effect.write (("gcloud active project is \"").toList ++
          gcloudConfig.Project ++ ("\"\n").toList)],
        c := { s.c with Project := gcloudConfig.Project } }
    else s
  if s.c.Creds = [] then
    let src : GcloudCmdTokenSource := { Command := helperCmd w, Args := helperArgs }
    let ts : ReuseTokenSource := { t := gcloudConfig.Credential.Token, src := src }
    { s with c := { s.c with TokenSource := some ts } }
  else s

/-- The credentials path after lines 136-143: the one of the configuration,
or the value of the environment variable when that is empty. -/
def completedCreds (s : State) : Str :=
  if s.c.Creds = [] then os.Getenv s.env credsVar else s.c.Creds

/-- The loop of `Config.Load` over the lines of the dotfile (lines 57-74): the
configuration when the loop is left, and the error returned at a line (`none`
when the last line is passed). -/
def loadLines (filename : Str) : Config → List Str → Config × Option Error
  | c, [] => (c, none)
  | c, line :: rest =>
    match strings.Index line '=' with
    | none => (c, some (Error.BadLine filename line))
    | some i =>
      let key := strings.TrimSpace (line.take i)
      let val := strings.TrimSpace (line.drop (i + 1))
      if key = ("project").toList then loadLines filename { c with Project := val } rest
      else if key = ("instance").toList then loadLines filename { c with Instance := val } rest
      else if key = ("creds").toList then loadLines filename { c with Creds := val } rest
      else (c, some (Error.UnknownKey filename key))

/-- The method `Config.registerFlags` followed by `flag.Parse()` (lines 76-77):
a flag given on the command line replaces the value of the field. -/
def registerFlagsAndParse (w : World) (c : Config) : Config :=
  { c with
    Project := w.flags.project.getD c.Project,
    Instance := w.flags.inst.getD c.Instance,
    Creds := w.flags.creds.getD c.Creds }

/-- The method `Config.Load` (lines 48-83): the state afterwards and the error
returned (`none` for `nil`). -/
def Load (w : World) (s : State) : State × Option Error :=
  let filename := w.Join (os.Getenv s.env ("HOME").toList) (".cbtrc").toList
  match w.ReadFile filename with
  | FileRead.failed err => (s, some (Error.Reading filename err))
  | file =>
    let data : Str := match file with
      | FileRead.data d => d
      | _ => []
    let (lines, tooLong) := bufio.scanLines data
    match loadLines filename s.c lines with
    | (c, some err) => ({ s with c := c }, some err)
    | (c, none) =>
      let s : State := { s with c := registerFlagsAndParse w c }
      match setFromGcloud w s with
      | (s, some err) => (s, some err)
      | (s, none) => (s, if tooLong then some Error.ErrTooLong else none)

/-- A world for the examples: the dotfile holds `data`, no flag is given, the
helper subprocess cannot be run. -/
def sampleWorld (data : Str) : World :=
  { GOOS := ("linux").toList,
    Join := fun a b => a ++ ("/").toList ++ b,
    ReadFile := fun _ => FileRead.data data,
    flags := { project := none, inst := none, creds := none },
    Output := fun _ _ => .error ("exit status 1").toList,
    Unmarshal := fun _ => .error ("unexpected end of JSON input").toList }

/-- A world for the examples: no dotfile, no flag, the helper subprocess prints
`out`, which decodes to `g`. -/
def helperWorld (out : Str) (g : GcloudConfig) : World :=
  { GOOS := ("linux").toList,
    Join := fun a b => a ++ ("/").toList ++ b,
    ReadFile := fun _ => FileRead.notExist,
    flags := { project := none, inst := none, creds := none },
    Output := fun _ _ => .ok out,
    Unmarshal := fun _ => .ok g }

/-- A state for the examples: an empty configuration, `HOME=/home/u`. -/
def sampleState : State :=
  { c := { Project := [], Instance := [], Creds := [], TokenSource := none },
    env := [(("HOME").toList, ("/home/u").toList)],
    log := [] }

end config

/-! ## Reference definitions, after the words of the specification -/

namespace Spec

open bigtable

/-- The key of a raw argument: the text before its first `=`. -/
def optKey (arg : Str) : Str := arg.takeWhile (· != '=')

/-- The value of a raw argument: the text after its first `=`. -/
def optVal (arg : Str) : Str := (arg.dropWhile (· != '=')).drop 1

/-- The allowed keys of `lookup`. -/
def lookupAllowed : List Str :=
  [("decode").toList, ("decode_columns").toList, ("version").toList]

/-- The allowed keys of `read`. -/
def readAllowed : List Str :=
  [("decode").toList, ("decode_columns").toList, ("count").toList, ("start").toList,
   ("end").toList, ("prefix").toList, ("version").toList, ("family").toList,
   ("value").toList, ("from").toList, ("to").toList]

/-- A raw argument is accepted: it contains `=` and its key is allowed. -/
def accepted (allowed : List Str) (arg : Str) : Prop :=
  '=' ∈ arg ∧ optKey arg ∈ allowed

instance (allowed : List Str) (arg : Str) : Decidable (accepted allowed arg) := by
  unfold accepted; infer_instance

/-- The text written for a raw argument that is not accepted. -/
def rejectText (arg : Str) : Str :=
  if '=' ∈ arg then ("Unknown option: ").toList ++ arg ++ ("\n").toList
  else ("Invalid option: ").toList ++ arg ++ ("\n").toList

/-- The option parser of the specification: each raw argument is cut at its
first `=`; the first argument that is not accepted ends the parse. -/
def parse (allowed : List Str) : GoMap → List Str → Except Str GoMap
  | acc, [] => .ok acc
  | acc, a :: rest =>
    if accepted allowed a then parse allowed (acc.set (optKey a) (optVal a)) rest
    else .error (rejectText a)

/-- The value of the last raw argument whose key is `k`, if there is one. -/
def lastVal (opts : List Str) (k : Str) : Option Str :=
  ((opts.filter (fun a => optKey a == k)).getLast?).map optVal

/-- A numeric option: absent when its text is empty, else read by
`strconv.ParseInt(text, 0, 64)`. -/
def optInt (text : Str) : Except strconv.NumError (Option Int) :=
  if text = [] then .ok none else (strconv.ParseInt text).map some

/-- The time of an optional bound: the zero time when the bound is absent. -/
def boundTime (b : Option Int) : time.Time :=
  match b with
  | some t => time.Unix t
  | none => time.zero

/-- The table of the specification: the filters of the options, in the fixed
order regex, family, version, timestamp range, value. -/
def filtersOf (regex family : Str) (version lo hi : Option Int) (value : Str) : List Filter :=
  (if regex ≠ [] then [Filter.RowKeyFilter regex] else []) ++
  (if family ≠ [] then [Filter.FamilyFilter (("^").toList ++ family ++ ("$").toList)] else []) ++
  (match version with
    | some n => [Filter.LatestNFilter n]
    | none => []) ++
  (if (!(boundTime lo).IsZero || !(boundTime hi).IsZero) = true then
    [Filter.TimestampRangeFilter (boundTime lo) (boundTime hi)] else []) ++
  (if value ≠ [] then [Filter.ValueFilter value] else [])

/-- The combination of the specification: no filter for none, the filter
itself for one, the AND-chain of all for two or more. -/
def combine (fils : List Filter) : Option Filter :=
  match fils with
  | [] => none
  | [f] => some f
  | _ :: _ :: _ => some (Filter.ChainFilters fils)

/-- The filter a read option attaches, if it is a row-filter option. -/
def rowFilter? (o : ReadOption) : Option Filter :=
  match o with
  | ReadOption.RowFilter f => some f
  | ReadOption.LimitRows _ => none

/-- The row limit of a read option, if it is one. -/
def limit? (o : ReadOption) : Option Int :=
  match o with
  | ReadOption.RowFilter _ => none
  | ReadOption.LimitRows n => some n

/-- The read options of the specification: the combined filter, then the row
limit. -/
def readOptionsOf (fils : List Filter) (count : Option Int) : List ReadOption :=
  ((combine fils).map ReadOption.RowFilter).toList ++
    (match count with
      | some n => [ReadOption.LimitRows n]
      | none => [])

/-- The place of a filter in the fixed order of the specification: regex,
family, version, timestamp range, value (a chain comes after all of them). -/
def rank (f : Filter) : Nat :=
  match f with
  | Filter.RowKeyFilter _ => 0
  | Filter.FamilyFilter _ => 1
  | Filter.LatestNFilter _ => 2
  | Filter.TimestampRangeFilter _ _ => 3
  | Filter.ValueFilter _ => 4
  | Filter.ChainFilters _ => 5

/-- Whether a filter is a timestamp-range filter. -/
def isTimestampRange (f : Filter) : Bool :=
  match f with
  | Filter.TimestampRangeFilter _ _ => true
  | _ => false

/-- The keys of the dotfile. -/
def dotfileKeys : List Str := [("project").toList, ("instance").toList, ("creds").toList]

/-- The key of a dotfile line: the text before its first `=`, white space
trimmed. -/
def lineKey (line : Str) : Str := strings.TrimSpace (optKey line)

/-- A dotfile line is well formed: it has an `=` and its key is known. -/
def goodLine (line : Str) : Prop := '=' ∈ line ∧ lineKey line ∈ dotfileKeys

instance (line : Str) : Decidable (goodLine line) := by
  unfold goodLine; infer_instance

/-- The error of a dotfile line that is not well formed. -/
def lineError (filename line : Str) : config.Error :=
  if '=' ∈ line then config.Error.UnknownKey filename (lineKey line)
  else config.Error.BadLine filename line

/-- Whether an error is a parse error of the dotfile. -/
def isParseError (e : config.Error) : Bool :=
  match e with
  | config.Error.BadLine _ _ => true
  | config.Error.UnknownKey _ _ => true
  | _ => false

/-- The column name of an element `name:type`: the text before its first `:`. -/
def colName (d : Str) : Str := d.takeWhile (· != ':')

/-- The type of an element `name:type`: the text after its first `:`. -/
def colType (d : Str) : Str := (d.dropWhile (· != ':')).drop 1

/-- The comma-separated elements of a `decode_columns` value; none for the
empty value. -/
def colElements (arg : Str) : List Str :=
  if arg = [] then [] else strings.Split arg ','

/-- The type of the last element with a colon whose column name is `name`, if
there is one. -/
def lastColType (ds : List Str) (name : Str) : Option Str :=
  ((ds.filter (fun d => decide (':' ∈ d) && colName d == name)).getLast?).map colType

/-- The row range of the specification: the beginning given by `prefix` first,
then `end`, then `start`, then unbounded. -/
def rowRangeSpec (m : GoMap) : RowRange :=
  if m.get ("prefix").toList ≠ [] then RowRange.PrefixRange (m.get ("prefix").toList)
  else if m.get ("end").toList ≠ [] then
    RowRange.NewRange (m.get ("start").toList) (m.get ("end").toList)
  else if m.get ("start").toList ≠ [] then RowRange.InfiniteRange (m.get ("start").toList)
  else RowRange.zero

end Spec

/-! ## Lemmas on maps and strings -/

namespace GoMap

theorem lookup_filter_ne (m : GoMap) (k k' : Str) :
    List.lookup k' (m.filter (fun p => p.1 != k)) = if k' = k then none else List.lookup k' m := by
  induction m with
  | nil => simp
  | cons p m ih =>
    obtain ⟨a, b⟩ := p
    by_cases hak : a = k
    · subst hak
      have hf : List.filter (fun p : Str × Str => p.1 != a) ((a, b) :: m)
          = List.filter (fun p : Str × Str => p.1 != a) m := by
        simp [List.filter_cons]
      rw [hf, ih]
      by_cases hk : k' = a
      · simp [hk]
      · have : (k' == a) = false := by simpa using hk
        simp [hk, List.lookup_cons, this]
    · have hne : (a != k) = true := by simpa using hak
      have hf : List.filter (fun p : Str × Str => p.1 != k) ((a, b) :: m)
          = (a, b) :: List.filter (fun p : Str × Str => p.1 != k) m := by
        simp [List.filter_cons, hak]
      rw [hf, List.lookup_cons, List.lookup_cons, ih]
      by_cases hk : k' = k
      · subst hk
        have : (k' == a) = false := by simpa using (fun h : k' = a => hak h.symm)
        simp [this]
      · simp [hk]

theorem find?_set (m : GoMap) (k v k' : Str) :
    (m.set k v).find? k' = if k' = k then some v else m.find? k' := by
  unfold set find?
  by_cases hk : k' = k
  · subst hk; simp [List.lookup_cons]
  · have : (k' == k) = false := by simpa using hk
    simp [List.lookup_cons, this, lookup_filter_ne, hk]

theorem get_set (m : GoMap) (k v k' : Str) :
    (m.set k v).get k' = if k' = k then v else m.get k' := by
  unfold get
  rw [find?_set]
  by_cases hk : k' = k <;> simp [hk]

theorem find?_isSome_iff (m : GoMap) (k : Str) : (m.find? k).isSome ↔ k ∈ m.keys := by
  unfold find? keys
  induction m with
  | nil => simp
  | cons p m ih =>
    obtain ⟨a, b⟩ := p
    by_cases hk : k = a
    · subst hk; simp [List.lookup_cons]
    · have : (k == a) = false := by simpa using hk
      simp [List.lookup_cons, this, ih, hk]

end GoMap

namespace strings

theorem Index_eq_none (s : Str) (c : Char) : Index s c = none ↔ c ∉ s := by
  induction s with
  | nil => simp [Index]
  | cons x xs ih =>
    by_cases hx : x = c
    · simp [Index, hx]
    · have hx2 : ¬ c = x := fun h => hx h.symm
      simp [Index, hx, hx2, ih]

theorem Index_some (s : Str) (c : Char) (i : Nat) (h : Index s c = some i) :
    s.take i = s.takeWhile (· != c) ∧ s.drop (i + 1) = (s.dropWhile (· != c)).drop 1 := by
  induction s generalizing i with
  | nil => simp [Index] at h
  | cons x xs ih =>
    by_cases hx : x = c
    · simp [Index, hx] at h
      subst h
      simp [hx]
    · simp only [Index, hx, if_false] at h
      cases hi : Index xs c with
      | none => simp [hi] at h
      | some j =>
        simp [hi] at h
        subst h
        have hne : (x != c) = true := by simpa using hx
        obtain ⟨h1, h2⟩ := ih j hi
        simp [List.takeWhile_cons, List.dropWhile_cons, hne, h1, h2]

end strings

namespace cbt
open Spec

theorem readOpts_eq_parse (acc : GoMap) (opts : List Str) :
    readOpts acc opts = Spec.parse readAllowed acc opts := by
  induction opts generalizing acc with
  | nil => rfl
  | cons a rest ih =>
    unfold readOpts Spec.parse
    cases hi : strings.Index a '=' with
    | none =>
      have hnot : '=' ∉ a := (strings.Index_eq_none a '=').1 hi
      simp [accepted, rejectText, hnot]
    | some i =>
      have hin : '=' ∈ a := by
        by_contra hc
        rw [(strings.Index_eq_none a '=').2 hc] at hi
        cases hi
      obtain ⟨h1, h2⟩ := strings.Index_some a '=' i hi
      simp only [h1, h2]
      have hk : List.takeWhile (fun x => x != '=') a = optKey a := rfl
      have hv : (List.dropWhile (fun x => x != '=') a).drop 1 = optVal a := rfl
      rw [hk, hv]
      by_cases hd : optKey a = ("decode").toList ∨ optKey a = ("decode_columns").toList
      · have hacc : accepted readAllowed a := by
          refine ⟨hin, ?_⟩
          rcases hd with h | h <;> rw [h] <;> decide
        rw [if_pos hd, if_pos hacc, ih]
      · by_cases hr : optKey a ∈ readKeys
        · have hacc : accepted readAllowed a := by
            refine ⟨hin, ?_⟩
            simp only [readKeys, List.mem_cons, List.mem_singleton, List.not_mem_nil, or_false] at hr
            rcases hr with h | h | h | h | h | h | h | h | h <;> rw [h] <;> decide
          rw [if_neg hd, if_pos hr, if_pos hacc, ih]
        · have hacc : ¬ accepted readAllowed a := by
            rintro ⟨-, hmem⟩
            simp only [readAllowed, List.mem_cons, List.mem_singleton, List.not_mem_nil, or_false] at hmem
            simp only [readKeys, List.mem_cons, List.mem_singleton, List.not_mem_nil, or_false] at hr
            tauto
          rw [if_neg hd, if_neg hr, if_neg hacc]
          simp only [rejectText, hin, if_true]


theorem lookupOpts_eq_parse (acc : GoMap) (opts : List Str) :
    lookupOpts acc opts = Spec.parse lookupAllowed acc opts := by
  induction opts generalizing acc with
  | nil => rfl
  | cons a rest ih =>
    unfold lookupOpts Spec.parse
    cases hi : strings.Index a '=' with
    | none =>
      have hnot : '=' ∉ a := (strings.Index_eq_none a '=').1 hi
      simp [accepted, rejectText, hnot]
    | some i =>
      have hin : '=' ∈ a := by
        by_contra hc
        rw [(strings.Index_eq_none a '=').2 hc] at hi
        cases hi
      obtain ⟨h1, h2⟩ := strings.Index_some a '=' i hi
      simp only [h1, h2]
      have hk : List.takeWhile (fun x => x != '=') a = optKey a := rfl
      have hv : (List.dropWhile (fun x => x != '=') a).drop 1 = optVal a := rfl
      rw [hk, hv]
      by_cases hd : optKey a = ("decode").toList ∨ optKey a = ("decode_columns").toList
      · have hacc : accepted lookupAllowed a := by
          refine ⟨hin, ?_⟩
          rcases hd with h | h <;> rw [h] <;> decide
        rw [if_pos hd, if_pos hacc, ih]
      · by_cases hr : optKey a = ("version").toList
        · have hacc : accepted lookupAllowed a := by
            refine ⟨hin, ?_⟩
            rw [hr]; decide
          rw [if_neg hd, if_pos hr, if_pos hacc, ih]
        · have hacc : ¬ accepted lookupAllowed a := by
            rintro ⟨-, hmem⟩
            simp only [lookupAllowed, List.mem_cons, List.mem_singleton, List.not_mem_nil,
              or_false] at hmem
            tauto
          rw [if_neg hd, if_neg hr, if_neg hacc]
          simp only [rejectText, hin, if_true]

end cbt

namespace Spec

theorem parse_ok_iff (allowed : List Str) (acc : GoMap) (opts : List Str) :
    (∃ m, parse allowed acc opts = .ok m) ↔ ∀ a ∈ opts, accepted allowed a := by
  induction opts generalizing acc with
  | nil => simp [parse]
  | cons a rest ih =>
    unfold parse
    by_cases ha : accepted allowed a
    · rw [if_pos ha, ih]
      simp [ha]
    · rw [if_neg ha]
      simp [ha]

theorem parse_first_reject (allowed : List Str) (acc : GoMap) (pre post : List Str) (a : Str)
    (hpre : ∀ x ∈ pre, accepted allowed x) (ha : ¬ accepted allowed a) :
    parse allowed acc (pre ++ a :: post) = .error (rejectText a) := by
  induction pre generalizing acc with
  | nil =>
    simp only [List.nil_append]
    unfold parse
    rw [if_neg ha]
  | cons x pre ih =>
    have hx : accepted allowed x := hpre x (List.mem_cons_self _ _)
    simp only [List.cons_append]
    unfold parse
    rw [if_pos hx]
    exact ih _ (fun y hy => hpre y (List.mem_cons_of_mem _ hy))

theorem parse_find? (allowed : List Str) (acc : GoMap) (opts : List Str) (m : GoMap)
    (h : parse allowed acc opts = .ok m) (k : Str) :
    m.find? k = (lastVal opts k).or (acc.find? k) := by
  induction opts generalizing acc with
  | nil =>
    simp only [parse, Except.ok.injEq] at h
    subst h
    simp [lastVal]
  | cons a rest ih =>
    unfold parse at h
    by_cases ha : accepted allowed a
    · rw [if_pos ha] at h
      rw [ih _ h, GoMap.find?_set]
      unfold lastVal
      by_cases hk : optKey a = k
      · have hb : (optKey a == k) = true := by simpa using hk
        rw [List.filter_cons, if_pos hb, List.getLast?_cons, if_pos hk.symm]
        cases hl : (List.filter (fun a => optKey a == k) rest).getLast? <;> simp
      · have hb : ¬ (optKey a == k) = true := by simpa using hk
        have hk2 : ¬ k = optKey a := fun h => hk h.symm
        rw [List.filter_cons, if_neg hb, if_neg hk2]
    · rw [if_neg ha] at h
      cases h

end Spec

namespace Spec
theorem lastVal_isSome_iff (opts : List Str) (k : Str) :
    (lastVal opts k).isSome ↔ k ∈ opts.map optKey := by
  unfold lastVal
  rw [Option.isSome_map', List.getLast?_isSome]
  constructor
  · intro h
    obtain ⟨a, ha⟩ := List.exists_mem_of_ne_nil _ h
    rw [List.mem_filter] at ha
    exact List.mem_map.2 ⟨a, ha.1, by simpa using ha.2⟩
  · intro h hnil
    obtain ⟨a, ha, hk⟩ := List.mem_map.1 h
    have hm : a ∈ List.filter (fun a => optKey a == k) opts :=
      List.mem_filter.2 ⟨ha, by simpa using hk⟩
    rw [hnil] at hm
    cases hm
end Spec


namespace cbt
open Spec bigtable

theorem ite_append_single {α : Type} (c : Prop) [Decidable c] (l : List α) (a : α) :
    (if c then l ++ [a] else l) = l ++ (if c then [a] else []) := by
  split_ifs <;> simp

theorem derivedFilters_eq (m : GoMap) :
    derivedFilters m =
      (optInt (m.get ("version").toList)).bind fun v =>
      (optInt (m.get ("from").toList)).bind fun lo =>
      (optInt (m.get ("to").toList)).bind fun hi =>
      .ok (filtersOf (m.get ("regex").toList) (m.get ("family").toList) v lo hi
        (m.get ("value").toList)) := by
  unfold derivedFilters optInt filtersOf
  generalize m.get ("regex").toList = regex
  generalize m.get ("family").toList = family
  generalize m.get ("version").toList = version
  generalize m.get ("from").toList = lo
  generalize m.get ("to").toList = hi
  generalize m.get ("value").toList = value
  dsimp only
  generalize strconv.ParseInt version = pv
  generalize strconv.ParseInt lo = plo
  generalize strconv.ParseInt hi = phi
  simp only [ite_append_single, List.nil_append]
  by_cases hv : version = [] <;> by_cases hlo : lo = [] <;> by_cases hhi : hi = [] <;>
    simp only [hv, hlo, hhi, ne_eq, not_true_eq_false, not_false_eq_true, if_true, if_false] <;>
    cases pv <;> cases plo <;> cases phi <;>
    simp only [Except.bind, Except.map, boundTime, List.append_nil, List.append_assoc]
end cbt

namespace cbt
open Spec bigtable

theorem readOption_eq (m : GoMap) :
    readOption m =
      (derivedFilters m).bind fun fils =>
      (optInt (m.get ("count").toList)).bind fun c =>
      .ok (readOptionsOf fils c) := by
  unfold readOption optInt readOptionsOf combine
  generalize m.get ("count").toList = count
  generalize derivedFilters m = df
  dsimp only
  generalize strconv.ParseInt count = pc
  cases df with
  | error e => rfl
  | ok fils =>
    by_cases hc : count = []
    · simp only [hc, ne_eq, not_true_eq_false, if_false, if_true, Except.bind]
      rcases fils with _ | ⟨f, _ | ⟨g, rest⟩⟩ <;> simp
    · simp only [hc, ne_eq, not_false_eq_true, if_false, if_true, Except.bind]
      cases pc with
      | error e => rfl
      | ok n =>
        simp only [Except.map, Except.bind]
        rcases fils with _ | ⟨f, _ | ⟨g, rest⟩⟩ <;> simp

theorem optInt_error_iff (s : Str) :
    (∃ e, optInt s = .error e) ↔ s ≠ [] ∧ ∃ e, strconv.ParseInt s = .error e := by
  unfold optInt
  by_cases hs : s = []
  · simp [hs]
  · cases hp : strconv.ParseInt s <;> simp [hs, Except.map]

theorem derivedFilters_error_iff (m : GoMap) :
    (∃ e, derivedFilters m = .error e) ↔
      (∃ e, optInt (m.get ("version").toList) = .error e) ∨
      (∃ e, optInt (m.get ("from").toList) = .error e) ∨
      (∃ e, optInt (m.get ("to").toList) = .error e) := by
  rw [derivedFilters_eq]
  cases optInt (m.get ("version").toList) <;> cases optInt (m.get ("from").toList) <;>
    cases optInt (m.get ("to").toList) <;> simp [Except.bind]

theorem readOption_error_iff (m : GoMap) :
    (∃ e, readOption m = .error e) ↔
      (∃ e, optInt (m.get ("version").toList) = .error e) ∨
      (∃ e, optInt (m.get ("from").toList) = .error e) ∨
      (∃ e, optInt (m.get ("to").toList) = .error e) ∨
      (∃ e, optInt (m.get ("count").toList) = .error e) := by
  have h := derivedFilters_error_iff m
  rw [readOption_eq]
  cases hd : derivedFilters m with
  | error e =>
    rw [hd] at h
    have h2 := h.1 ⟨e, rfl⟩
    simp only [Except.bind]
    constructor
    · intro _
      rcases h2 with h2 | h2 | h2
      · exact Or.inl h2
      · exact Or.inr (Or.inl h2)
      · exact Or.inr (Or.inr (Or.inl h2))
    · intro _
      exact ⟨e, rfl⟩
  | ok fils =>
    rw [hd] at h
    have h2 : ¬ ((∃ e, optInt (m.get ("version").toList) = .error e) ∨
      (∃ e, optInt (m.get ("from").toList) = .error e) ∨
      (∃ e, optInt (m.get ("to").toList) = .error e)) := by
      intro hc
      obtain ⟨e, he⟩ := h.2 hc
      cases he
    cases hc : optInt (m.get ("count").toList) with
    | error e =>
      simp only [Except.bind]
      constructor
      · intro _
        exact Or.inr (Or.inr (Or.inr ⟨e, rfl⟩))
      · intro _
        exact ⟨e, rfl⟩
    | ok c =>
      simp only [Except.bind]
      constructor
      · rintro ⟨e, he⟩
        cases he
      · rintro (h3 | h3 | h3 | ⟨e, he⟩)
        · exact absurd (Or.inl h3) h2
        · exact absurd (Or.inr (Or.inl h3)) h2
        · exact absurd (Or.inr (Or.inr h3)) h2
        · cases he


theorem readOptionsOf_filterMap (fils : List Filter) (c : Option Int) :
    (readOptionsOf fils c).filterMap rowFilter? = (combine fils).toList := by
  unfold readOptionsOf
  cases c <;> cases combine fils <;> simp [rowFilter?]

theorem readOption_ok_inv (m : GoMap) (ro : List ReadOption) (h : readOption m = .ok ro) :
    ∃ fils c, derivedFilters m = .ok fils ∧ optInt (m.get ("count").toList) = .ok c ∧
      ro = readOptionsOf fils c := by
  rw [readOption_eq] at h
  cases hd : derivedFilters m with
  | error e => rw [hd] at h; cases h
  | ok fils =>
    cases hc : optInt (m.get ("count").toList) with
    | error e => rw [hd, hc] at h; cases h
    | ok c =>
      rw [hd, hc] at h
      simp only [Except.bind, Except.ok.injEq] at h
      exact ⟨fils, c, rfl, rfl, h.symm⟩

theorem derivedFilters_congr (m m' : GoMap)
    (h : ∀ k, k ≠ ("count").toList → m'.get k = m.get k) :
    derivedFilters m' = derivedFilters m := by
  rw [derivedFilters_eq, derivedFilters_eq,
    h ("version").toList (by decide), h ("from").toList (by decide), h ("to").toList (by decide),
    h ("regex").toList (by decide), h ("family").toList (by decide), h ("value").toList (by decide)]

end cbt

namespace Spec

theorem lastVal_perm (opts opts' : List Str) (hperm : opts.Perm opts')
    (hkeys : (opts.map optKey).Nodup) (k : Str) : lastVal opts k = lastVal opts' k := by
  unfold lastVal
  have hp : (opts.filter (fun a => optKey a == k)).Perm (opts'.filter (fun a => optKey a == k)) :=
    hperm.filter _
  have hnd : ((opts.filter (fun a => optKey a == k)).map optKey).Nodup :=
    List.Nodup.sublist ((List.filter_sublist _).map optKey) hkeys
  have hall : ∀ a ∈ opts.filter (fun a => optKey a == k), optKey a = k := by
    intro a ha
    simpa using (List.mem_filter.1 ha).2
  generalize opts.filter (fun a => optKey a == k) = l at hp hnd hall
  generalize opts'.filter (fun a => optKey a == k) = l' at hp
  rcases l with _ | ⟨a, _ | ⟨b, rest⟩⟩
  · rw [List.Perm.nil_eq hp]
  · rw [List.singleton_perm.1 hp]
  · exfalso
    have ha := hall a (by simp)
    have hb := hall b (by simp)
    simp only [List.map_cons, List.nodup_cons, List.mem_cons] at hnd
    exact hnd.1 (Or.inl (ha.trans hb.symm))

end Spec

namespace cbt
open Spec bigtable

theorem readOpts_find (opts : List Str) (m : GoMap) (h : readOpts [] opts = .ok m) (k : Str) :
    m.find? k = lastVal opts k := by
  rw [readOpts_eq_parse] at h
  simpa [GoMap.find?] using parse_find? _ _ _ _ h k

theorem lookupOpts_find (opts : List Str) (m : GoMap) (h : lookupOpts [] opts = .ok m)
    (k : Str) : m.find? k = lastVal opts k := by
  rw [lookupOpts_eq_parse] at h
  simpa [GoMap.find?] using parse_find? _ _ _ _ h k

theorem filtersOf_sorted (regex family : Str) (v lo hi : Option Int) (value : Str) :
    ((filtersOf regex family v lo hi value).map rank).Pairwise (· < ·) := by
  unfold filtersOf
  by_cases hr : regex = [] <;> by_cases hf : family = [] <;> cases v <;>
    by_cases ht : (!(boundTime lo).IsZero || !(boundTime hi).IsZero) = true <;>
    by_cases hval : value = [] <;>
    simp [hr, hf, ht, hval, rank]

theorem derivedFilters_ok_inv (m : GoMap) (fils : List Filter) (h : derivedFilters m = .ok fils) :
    ∃ v lo hi, optInt (m.get ("version").toList) = .ok v ∧
      optInt (m.get ("from").toList) = .ok lo ∧ optInt (m.get ("to").toList) = .ok hi ∧
      fils = filtersOf (m.get ("regex").toList) (m.get ("family").toList) v lo hi
        (m.get ("value").toList) := by
  rw [derivedFilters_eq] at h
  cases hv : optInt (m.get ("version").toList) with
  | error e => rw [hv] at h; cases h
  | ok v =>
    cases hlo : optInt (m.get ("from").toList) with
    | error e => rw [hv, hlo] at h; cases h
    | ok lo =>
      cases hhi : optInt (m.get ("to").toList) with
      | error e => rw [hv, hlo, hhi] at h; cases h
      | ok hi =>
        rw [hv, hlo, hhi] at h
        simp only [Except.bind, Except.ok.injEq] at h
        exact ⟨v, lo, hi, rfl, rfl, rfl, h.symm⟩

theorem readOption_congr (m m' : GoMap) (h : ∀ k, m'.get k = m.get k) :
    readOption m' = readOption m ∧ derivedFilters m' = derivedFilters m := by
  have hd : derivedFilters m' = derivedFilters m := derivedFilters_congr m m' (fun k _ => h k)
  refine ⟨?_, hd⟩
  rw [readOption_eq, readOption_eq, hd, h]

end cbt

namespace strconv

theorem ParseInt_range (s : Str) (n : Int) (h : ParseInt s = .ok n) :
    -(2 ^ 63 : Int) ≤ n ∧ n < 2 ^ 63 := by
  unfold ParseInt at h
  dsimp only at h
  by_cases hs : s = []
  · rw [if_pos hs] at h; cases h
  · rw [if_neg hs] at h
    generalize decide (s.head? = some '-') = neg at h
    generalize ParseUint (if s.head? = some '+' ∨ s.head? = some '-' then s.tail else s) = pu at h
    obtain ⟨un, err⟩ := pu
    have key : ∀ (r : Except NumError Int),
        (if neg = false ∧ un ≥ 2 ^ 63 then
          (Except.error ⟨("ParseInt").toList, s, ErrKind.ErrRange⟩ : Except NumError Int)
        else if neg = true ∧ un > 2 ^ 63 then Except.error ⟨("ParseInt").toList, s, ErrKind.ErrRange⟩
        else if neg = true then Except.ok (-(un : Int)) else Except.ok (un : Int)) = r →
        r = .ok n → -(2 ^ 63 : Int) ≤ n ∧ n < 2 ^ 63 := by
      intro r hr hn
      subst hr
      cases neg
      · by_cases h1 : un ≥ 2 ^ 63
        · rw [if_pos ⟨rfl, h1⟩] at hn; cases hn
        · rw [if_neg (fun hc => h1 hc.2), if_neg (fun hc => Bool.false_ne_true hc.1),
            if_neg Bool.false_ne_true] at hn
          injection hn with hn
          subst hn
          constructor <;> omega
      · by_cases h1 : un > 2 ^ 63
        · rw [if_neg (fun hc => Bool.noConfusion hc.1), if_pos ⟨rfl, h1⟩] at hn; cases hn
        · rw [if_neg (fun hc => Bool.noConfusion hc.1), if_neg (fun hc => h1 hc.2),
            if_pos rfl] at hn
          injection hn with hn
          subst hn
          constructor <;> omega
    rcases err with _ | (_ | _)
    · exact key _ rfl h
    · cases h
    · exact key _ rfl h

end strconv
namespace time

theorem Unix_IsZero_iff (a : Int) (h1 : -(2 ^ 63 : Int) ≤ a) (h2 : a < 2 ^ 63) :
    (Unix a).IsZero = true ↔ a = -62135596800 := by
  unfold Unix Time.IsZero wrapInt64 unixToInternal
  simp only [Bool.and_eq_true, beq_iff_eq, and_true]
  constructor <;> intro h <;> omega

theorem Unix_UnixSeconds (a : Int) (h1 : -(2 ^ 63 : Int) ≤ a) (h2 : a < 2 ^ 63) :
    (Unix a).UnixSeconds = a := by
  unfold Unix Time.UnixSeconds wrapInt64 unixToInternal
  simp only
  omega

end time

namespace cbt
open Spec bigtable

theorem optInt_of_ParseInt (s : Str) (n : Int) (hs : s ≠ []) (hn : strconv.ParseInt s = .ok n) :
    optInt s = .ok (some n) := by
  unfold optInt
  rw [if_neg hs, hn]
  rfl

theorem optInt_nil : optInt [] = .ok none := rfl

theorem filter_isTs_filtersOf (regex family : Str) (v lo hi : Option Int) (value : Str) :
    (filtersOf regex family v lo hi value).filter isTimestampRange =
      if (!(boundTime lo).IsZero || !(boundTime hi).IsZero) = true then
        [Filter.TimestampRangeFilter (boundTime lo) (boundTime hi)] else [] := by
  unfold filtersOf
  by_cases hr : regex = [] <;> by_cases hf : family = [] <;> cases v <;>
    by_cases ht : (!(boundTime lo).IsZero || !(boundTime hi).IsZero) = true <;>
    by_cases hval : value = [] <;>
    simp [hr, hf, ht, hval, isTimestampRange]

theorem optInt_ok_nil_iff (s : Str) (v : Option Int) (h : optInt s = .ok v) :
    (s = [] → v = none) ∧ (∀ a, s ≠ [] → strconv.ParseInt s = .ok a → v = some a) := by
  unfold optInt at h
  constructor
  · intro hs
    rw [if_pos hs] at h
    injection h with h
    exact h.symm
  · intro a hs ha
    rw [if_neg hs, ha] at h
    injection h with h
    exact h.symm

end cbt

namespace config
open Spec

theorem exists_first_bad {α : Type} (P : α → Prop) (l : List α) (h : ∃ x ∈ l, ¬ P x) :
    ∃ pre x post, l = pre ++ x :: post ∧ (∀ y ∈ pre, P y) ∧ ¬ P x := by
  induction l with
  | nil => obtain ⟨x, hx, -⟩ := h; cases hx
  | cons a l ih =>
    by_cases ha : P a
    · have h' : ∃ x ∈ l, ¬ P x := by
        obtain ⟨x, hx, hnx⟩ := h
        rcases List.mem_cons.1 hx with rfl | hx
        · exact absurd ha hnx
        · exact ⟨x, hx, hnx⟩
      obtain ⟨pre, x, post, hl, hpre, hx⟩ := ih h'
      refine ⟨a :: pre, x, post, by rw [hl]; rfl, ?_, hx⟩
      intro y hy
      rcases List.mem_cons.1 hy with rfl | hy
      · exact ha
      · exact hpre y hy
    · exact ⟨[], a, l, rfl, (fun y hy => absurd hy (List.not_mem_nil y)), ha⟩

theorem loadLines_first_bad (filename : Str) (c : Config) (pre post : List Str) (line : Str)
    (hpre : ∀ l ∈ pre, goodLine l) (hline : ¬ goodLine line) :
    (loadLines filename c (pre ++ line :: post)).2 = some (lineError filename line) := by
  induction pre generalizing c with
  | nil =>
    simp only [List.nil_append]
    unfold loadLines lineError
    cases hi : strings.Index line '=' with
    | none =>
      have hnot : '=' ∉ line := (strings.Index_eq_none line '=').1 hi
      simp only [hnot, if_false]
    | some i =>
      have hin : '=' ∈ line := by
        by_contra hc
        rw [(strings.Index_eq_none line '=').2 hc] at hi
        cases hi
      obtain ⟨h1, -⟩ := strings.Index_some line '=' i hi
      have hk : strings.TrimSpace (List.take i line) = lineKey line := by
        rw [h1]; rfl
      have hbad : lineKey line ∉ dotfileKeys := fun hc => hline ⟨hin, hc⟩
      simp only [dotfileKeys, List.mem_cons, List.mem_singleton, List.not_mem_nil, or_false,
        not_or] at hbad
      simp only [hk]
      rw [if_neg hbad.1, if_neg hbad.2.1, if_neg hbad.2.2, if_pos hin]
  | cons x pre ih =>
    obtain ⟨hin, hkey⟩ := hpre x (List.mem_cons_self _ _)
    have hrest : ∀ l ∈ pre, goodLine l := fun l hl => hpre l (List.mem_cons_of_mem _ hl)
    simp only [List.cons_append]
    unfold loadLines
    cases hi : strings.Index x '=' with
    | none => exact absurd hin ((strings.Index_eq_none x '=').1 hi)
    | some i =>
      obtain ⟨h1, -⟩ := strings.Index_some x '=' i hi
      have hk : strings.TrimSpace (List.take i x) = lineKey x := by
        rw [h1]; rfl
      simp only [hk]
      simp only [dotfileKeys, List.mem_cons, List.mem_singleton, List.not_mem_nil,
        or_false] at hkey
      by_cases hp : lineKey x = ("project").toList
      · rw [if_pos hp]; exact ih _ hrest
      · by_cases hins : lineKey x = ("instance").toList
        · rw [if_neg hp, if_pos hins]; exact ih _ hrest
        · have hcr : lineKey x = ("creds").toList := by tauto
          rw [if_neg hp, if_neg hins, if_pos hcr]; exact ih _ hrest

theorem Load_of_loadLines_error (w : World) (s : State) (data : Str) (err : Error)
    (hfile : w.ReadFile (w.Join (os.Getenv s.env ("HOME").toList) (".cbtrc").toList)
      = FileRead.data data)
    (herr : (loadLines (w.Join (os.Getenv s.env ("HOME").toList) (".cbtrc").toList) s.c
      (bufio.scanLines data).1).2 = some err) :
    (Load w s).2 = some err := by
  unfold Load
  simp only [hfile]
  generalize loadLines (w.Join (os.Getenv s.env ("HOME").toList) (".cbtrc").toList) s.c
      (bufio.scanLines data).1 = r at herr
  obtain ⟨c, e⟩ := r
  simp only at herr
  subst herr
  rfl

end config

namespace config
open Spec

theorem loadLines_all_good (filename : Str) (c : Config) (lines : List Str)
    (h : ∀ l ∈ lines, goodLine l) : (loadLines filename c lines).2 = none := by
  induction lines generalizing c with
  | nil => rfl
  | cons x rest ih =>
    obtain ⟨hin, hkey⟩ := h x (List.mem_cons_self _ _)
    have hrest : ∀ l ∈ rest, goodLine l := fun l hl => h l (List.mem_cons_of_mem _ hl)
    unfold loadLines
    cases hi : strings.Index x '=' with
    | none => exact absurd hin ((strings.Index_eq_none x '=').1 hi)
    | some i =>
      obtain ⟨h1, -⟩ := strings.Index_some x '=' i hi
      have hk : strings.TrimSpace (List.take i x) = lineKey x := by
        rw [h1]; rfl
      simp only [hk]
      simp only [dotfileKeys, List.mem_cons, List.mem_singleton, List.not_mem_nil,
        or_false] at hkey
      by_cases hp : lineKey x = ("project").toList
      · rw [if_pos hp]; exact ih _ hrest
      · by_cases hins : lineKey x = ("instance").toList
        · rw [if_neg hp, if_pos hins]; exact ih _ hrest
        · have hcr : lineKey x = ("creds").toList := by tauto
          rw [if_neg hp, if_neg hins, if_pos hcr]; exact ih _ hrest

theorem loadLines_none_iff (filename : Str) (c : Config) (lines : List Str) :
    (loadLines filename c lines).2 = none ↔ ∀ l ∈ lines, goodLine l := by
  constructor
  · intro h
    by_contra hc
    have hbad : ∃ x ∈ lines, ¬ goodLine x := by
      by_contra hne
      apply hc
      intro l hl
      by_contra hg
      exact hne ⟨l, hl, hg⟩
    obtain ⟨pre, x, post, hl, hpre, hx⟩ := exists_first_bad goodLine _ hbad
    rw [hl, loadLines_first_bad filename c pre post x hpre hx] at h
    cases h
  · exact loadLines_all_good filename c lines

theorem setFromGcloud_eq (w : World) (s : State) :
    setFromGcloud w s =
      if (projectStep (credsStep s)).c.Creds ≠ [] ∧ (projectStep (credsStep s)).c.Project ≠ []
      then (projectStep (credsStep s), none)
      else
        match (loadGcloudConfig w (helperCmd w) helperArgs).2 with
        | .error err =>
          ({ projectStep (credsStep s) with
              log := (projectStep (credsStep s)).log ++ [Effect.exec (helperCmd w) helperArgs] },
            some err)
        | .ok g =>
          (adoptStep w g { projectStep (credsStep s) with
              log := (projectStep (credsStep s)).log ++ [Effect.exec (helperCmd w) helperArgs] },
            none) := by
  unfold setFromGcloud loadGcloudConfig
  cases ho : w.Output (helperCmd w) helperArgs with
  | error e =>
    unfold helperCmd helperArgs at ho
    simp only [ho]
    rfl
  | ok out =>
    cases hu : w.Unmarshal out with
    | error e =>
      unfold helperCmd helperArgs at ho
      simp only [ho, hu]
      rfl
    | ok g =>
      unfold helperCmd helperArgs at ho
      simp only [ho, hu]
      rfl

end config

namespace config
open Spec

theorem credsStep_c (s : State) :
    (credsStep s).c = { s.c with Creds := completedCreds s } := by
  unfold credsStep completedCreds
  by_cases h1 : s.c.Creds = []
  · by_cases h2 : os.Getenv s.env credsVar = []
    · simp only [h1, h2, if_true]
    · simp only [h1, h2, if_true, if_false]
  · simp only [h1, if_false]

theorem projectStep_c (s : State) : (projectStep s).c = s.c := by
  unfold projectStep
  by_cases h : s.c.Project = [] <;> simp only [h, if_true, if_false]

theorem projectStep_env (s : State) : (projectStep s).env = s.env := by
  unfold projectStep
  by_cases h : s.c.Project = [] <;> simp only [h, if_true, if_false]

theorem credsStep_env (s : State) :
    (credsStep s).env = if s.c.Creds = [] then s.env else os.Setenv s.env credsVar s.c.Creds := by
  unfold credsStep
  by_cases h1 : s.c.Creds = []
  · by_cases h2 : os.Getenv s.env credsVar = []
    · simp only [h1, h2, if_true]
    · simp only [h1, h2, if_true, if_false]
  · simp only [h1, if_false]

/-- The effects of lines 136-147: the notes and the export, no run of the
subprocess. -/
theorem steps_log (s : State) :
    ∃ effs, (projectStep (credsStep s)).log = s.log ++ effs ∧
      ∀ cmd args, Effect.exec cmd args ∉ effs := by
  unfold projectStep credsStep
  by_cases h1 : s.c.Creds = [] <;> by_cases h2 : os.Getenv s.env credsVar = [] <;>
    by_cases h3 : s.c.Project = [] <;>
    simp only [h1, h2, h3, if_true, if_false, List.append_assoc] <;>
    first
      | exact ⟨_, rfl, by simp⟩
      | exact ⟨[], (List.append_nil _).symm, by simp⟩

theorem adoptStep_c (w : World) (g : GcloudConfig) (s : State) :
    (adoptStep w g s).c.Project = (if s.c.Project = [] then g.Project else s.c.Project) ∧
    (adoptStep w g s).c.Instance = s.c.Instance ∧
    (adoptStep w g s).c.Creds = s.c.Creds ∧
    (adoptStep w g s).c.TokenSource =
      (if s.c.Creds = [] then
        some { t := g.Credential.Token, src := { Command := helperCmd w, Args := helperArgs } }
       else s.c.TokenSource) ∧
    (adoptStep w g s).env = s.env := by
  unfold adoptStep
  by_cases h1 : s.c.Project = [] <;> by_cases h2 : g.Project = [] <;>
    by_cases h3 : s.c.Creds = [] <;>
    simp [h1, h2, h3]


/-- The three ways `setFromGcloud` ends. -/
theorem setFromGcloud_cases (w : World) (s : State) :
    (completedCreds s ≠ [] ∧ s.c.Project ≠ [] ∧
      setFromGcloud w s = (projectStep (credsStep s), none)) ∨
    (¬ (completedCreds s ≠ [] ∧ s.c.Project ≠ []) ∧
      ∃ err, (loadGcloudConfig w (helperCmd w) helperArgs).2 = .error err ∧
        setFromGcloud w s =
          ({ projectStep (credsStep s) with
              log := (projectStep (credsStep s)).log ++ [Effect.exec (helperCmd w) helperArgs] },
            some err)) ∨
    (¬ (completedCreds s ≠ [] ∧ s.c.Project ≠ []) ∧
      ∃ g, (loadGcloudConfig w (helperCmd w) helperArgs).2 = .ok g ∧
        setFromGcloud w s =
          (adoptStep w g { projectStep (credsStep s) with
              log := (projectStep (credsStep s)).log ++ [Effect.exec (helperCmd w) helperArgs] },
            none)) := by
  have hc : (projectStep (credsStep s)).c = { s.c with Creds := completedCreds s } := by
    rw [projectStep_c, credsStep_c]
  have hcr : (projectStep (credsStep s)).c.Creds = completedCreds s := by rw [hc]
  have hpr : (projectStep (credsStep s)).c.Project = s.c.Project := by rw [hc]
  rw [setFromGcloud_eq, hcr, hpr]
  by_cases hcond : completedCreds s ≠ [] ∧ s.c.Project ≠ []
  · rw [if_pos hcond]
    exact Or.inl ⟨hcond.1, hcond.2, rfl⟩
  · rw [if_neg hcond]
    cases hl : (loadGcloudConfig w (helperCmd w) helperArgs).2 with
    | error err => exact Or.inr (Or.inl ⟨hcond, err, rfl, rfl⟩)
    | ok g => exact Or.inr (Or.inr ⟨hcond, g, rfl, rfl⟩)

theorem loadGcloudConfig_ok_inv (w : World) (cmd : Str) (args : List Str) (g : GcloudConfig)
    (h : (loadGcloudConfig w cmd args).2 = .ok g) :
    ∃ out, w.Output cmd args = .ok out ∧ w.Unmarshal out = .ok g := by
  unfold loadGcloudConfig at h
  cases ho : w.Output cmd args with
  | error e => simp only [ho] at h; cases h
  | ok out =>
    cases hu : w.Unmarshal out with
    | error e => simp only [ho, hu] at h; cases h
    | ok g' =>
      simp only [ho, hu, Except.ok.injEq] at h
      exact ⟨out, rfl, by rw [← h, hu]⟩

theorem setFromGcloud_env_creds (w : World) (s : State) :
    (setFromGcloud w s).1.env = (credsStep s).env ∧
    (setFromGcloud w s).1.c.Creds = completedCreds s := by
  have hc : (projectStep (credsStep s)).c = { s.c with Creds := completedCreds s } := by
    rw [projectStep_c, credsStep_c]
  rcases setFromGcloud_cases w s with ⟨h1, h2, heq⟩ | ⟨hcond, err, -, heq⟩ | ⟨hcond, g, -, heq⟩
  · rw [heq]
    exact ⟨projectStep_env _, by rw [hc]⟩
  · rw [heq]
    exact ⟨projectStep_env _, by simp only [hc]⟩
  · rw [heq]
    obtain ⟨-, -, hcr, -, henv⟩ := adoptStep_c w g
      { projectStep (credsStep s) with
        log := (projectStep (credsStep s)).log ++ [Effect.exec (helperCmd w) helperArgs] }
    simp only at hcr henv ⊢
    rw [hcr, henv, hc]
    exact ⟨projectStep_env _, rfl⟩

theorem loadGcloudConfig_error (w : World) (cmd : Str) (args : List Str) (err : Error)
    (h : (loadGcloudConfig w cmd args).2 = .error err) :
    err = Error.Errorf ("Could not retrieve gcloud configuration").toList ∨
    err = Error.Errorf ("Could not parse gcloud configuration").toList := by
  unfold loadGcloudConfig at h
  cases ho : w.Output cmd args with
  | error e =>
    simp only [ho, Except.error.injEq] at h
    exact Or.inl h.symm
  | ok out =>
    cases hu : w.Unmarshal out with
    | error e =>
      simp only [ho, hu, Except.error.injEq] at h
      exact Or.inr h.symm
    | ok g =>
      simp only [ho, hu] at h
      cases h

theorem setFromGcloud_error (w : World) (s : State) (err : Error)
    (h : (setFromGcloud w s).2 = some err) : isParseError err = false := by
  rcases setFromGcloud_cases w s with ⟨-, -, heq⟩ | ⟨-, err', hl, heq⟩ | ⟨-, g, -, heq⟩
  · rw [heq] at h; cases h
  · rw [heq] at h
    simp only [Option.some.injEq] at h
    subst h
    rcases loadGcloudConfig_error w _ _ err' hl with h1 | h1 <;> rw [h1] <;> rfl
  · rw [heq] at h; cases h

theorem Load_of_loadLines_ok (w : World) (s : State) (data : Str) (err : Error)
    (hfile : w.ReadFile (w.Join (os.Getenv s.env ("HOME").toList) (".cbtrc").toList)
      = FileRead.data data)
    (hok : (loadLines (w.Join (os.Getenv s.env ("HOME").toList) (".cbtrc").toList) s.c
      (bufio.scanLines data).1).2 = none)
    (herr : (Load w s).2 = some err) : isParseError err = false := by
  unfold Load at herr
  simp only [hfile] at herr
  generalize loadLines (w.Join (os.Getenv s.env ("HOME").toList) (".cbtrc").toList) s.c
      (bufio.scanLines data).1 = r at hok herr
  obtain ⟨c, e⟩ := r
  simp only at hok
  subst hok
  simp only at herr
  generalize hsf : setFromGcloud w { s with c := registerFlagsAndParse w c } = r2 at herr
  obtain ⟨s2, e2⟩ := r2
  cases e2 with
  | some e =>
    simp only [Option.some.injEq] at herr
    subst herr
    apply setFromGcloud_error w _ e
    rw [hsf]
  | none =>
    simp only at herr
    by_cases ht : (bufio.scanLines data).2 = true
    · simp only [ht, if_true, Option.some.injEq] at herr
      subst herr
      rfl
    · simp only [ht, if_false] at herr
      cases herr

end config

namespace strings

theorem Split_ne_nil (s : Str) (c : Char) : Split s c ≠ [] := by
  induction s with
  | nil => simp [Split]
  | cons x xs ih =>
    unfold Split
    by_cases hx : x = c
    · simp [hx]
    · rw [if_neg hx]
      cases h : Split xs c with
      | nil => simp
      | cons p ps => simp

theorem Split_no_sep (s : Str) (c : Char) : ∀ p ∈ Split s c, c ∉ p := by
  induction s with
  | nil => simp [Split]
  | cons x xs ih =>
    unfold Split
    by_cases hx : x = c
    · rw [if_pos hx]
      intro p hp
      rcases List.mem_cons.1 hp with rfl | hp
      · simp
      · exact ih p hp
    · rw [if_neg hx]
      cases h : Split xs c with
      | nil => exact absurd h (Split_ne_nil xs c)
      | cons q qs =>
        rw [h] at ih
        intro p hp
        rcases List.mem_cons.1 hp with rfl | hp
        · intro hmem
          rcases List.mem_cons.1 hmem with h1 | h1
          · exact hx h1.symm
          · exact ih q (List.mem_cons_self _ _) h1
        · exact ih p (List.mem_cons_of_mem _ hp)

theorem Split_intercalate (s : Str) (c : Char) : List.intercalate [c] (Split s c) = s := by
  induction s with
  | nil => simp [Split, List.intercalate]
  | cons x xs ih =>
    unfold Split
    by_cases hx : x = c
    · rw [if_pos hx]
      cases h : Split xs c with
      | nil => exact absurd h (Split_ne_nil xs c)
      | cons q qs =>
        rw [h] at ih
        rw [← ih, hx]
        simp [List.intercalate, List.intersperse]
    · rw [if_neg hx]
      cases h : Split xs c with
      | nil => exact absurd h (Split_ne_nil xs c)
      | cons q qs =>
        rw [h] at ih
        rw [← ih]
        cases qs <;> simp [List.intercalate, List.intersperse]

end strings

namespace cbt
open Spec

theorem decodeColumnLoop_find (acc : GoMap) (ds : List Str) (name : Str) :
    (decodeColumnLoop acc ds).find? name = (lastColType ds name).or (acc.find? name) := by
  induction ds generalizing acc with
  | nil => simp [decodeColumnLoop, lastColType]
  | cons d ds ih =>
    unfold decodeColumnLoop strings.SplitN2
    cases hi : strings.Index d ':' with
    | none =>
      have hnot : ':' ∉ d := (strings.Index_eq_none d ':').1 hi
      simp only
      rw [ih]
      unfold lastColType
      have hb : ¬ (decide (':' ∈ d) && colName d == name) = true := by simp [hnot]
      rw [List.filter_cons, if_neg hb]
    | some i =>
      have hin : ':' ∈ d := by
        by_contra hc
        rw [(strings.Index_eq_none d ':').2 hc] at hi
        cases hi
      obtain ⟨h1, h2⟩ := strings.Index_some d ':' i hi
      have hk : List.take i d = colName d := h1
      have hv : List.drop (i + 1) d = colType d := h2
      simp only [hk, hv]
      rw [ih, GoMap.find?_set]
      unfold lastColType
      by_cases hn : colName d = name
      · have hb : (decide (':' ∈ d) && colName d == name) = true := by simp [hin, hn]
        rw [List.filter_cons, if_pos hb, List.getLast?_cons, if_pos hn.symm]
        cases hl : (List.filter (fun d => decide (':' ∈ d) && colName d == name) ds).getLast? <;>
          simp
      · have hb : ¬ (decide (':' ∈ d) && colName d == name) = true := by simp [hn]
        have hn2 : ¬ name = colName d := fun h => hn h.symm
        rw [List.filter_cons, if_neg hb, if_neg hn2]

theorem lastColType_isSome_iff (ds : List Str) (name : Str) :
    (lastColType ds name).isSome ↔ ∃ d ∈ ds, ':' ∈ d ∧ colName d = name := by
  unfold lastColType
  rw [Option.isSome_map', List.getLast?_isSome]
  constructor
  · intro h
    obtain ⟨a, ha⟩ := List.exists_mem_of_ne_nil _ h
    rw [List.mem_filter] at ha
    have h2 := ha.2
    simp only [Bool.and_eq_true, decide_eq_true_eq, beq_iff_eq] at h2
    exact ⟨a, ha.1, h2.1, h2.2⟩
  · rintro ⟨a, ha, hc, hk⟩ hnil
    have hm : a ∈ List.filter (fun d => decide (':' ∈ d) && colName d == name) ds :=
      List.mem_filter.2 ⟨ha, by simp [hc, hk]⟩
    rw [hnil] at hm
    cases hm

end cbt

namespace config
open Spec

theorem Token_Valid_iff (t : Token) (now : time.Time) :
    t.Valid now = true ↔
      t.AccessToken ≠ [] ∧
      (t.Expiry.IsZero = true ∨ (t.Expiry.AddSeconds (-10)).Before now = false) := by
  unfold Token.Valid Token.expired expiryDelta
  by_cases hz : t.Expiry.IsZero = true
  · simp [hz]
  · cases hb : (t.Expiry.AddSeconds (-10)).Before now <;> simp [hz, hb]

end config

namespace cbt
open Spec bigtable

theorem lastVal_eq_none (opts : List Str) (k : Str) (h : ∀ a ∈ opts, optKey a ≠ k) :
    lastVal opts k = none := by
  unfold lastVal
  have hf : List.filter (fun a => optKey a == k) opts = [] := by
    rw [List.filter_eq_nil_iff]
    intro a ha
    simpa using h a ha
  rw [hf]
  rfl

theorem filtersOf_rank (regex family : Str) (v lo hi : Option Int) (value : Str) :
    ∀ f ∈ filtersOf regex family v lo hi value, (regex = [] → 1 ≤ rank f) ∧ rank f ≤ 4 := by
  unfold filtersOf
  by_cases hr : regex = [] <;> by_cases hf : family = [] <;> cases v <;>
    by_cases ht : (!(boundTime lo).IsZero || !(boundTime hi).IsZero) = true <;>
    by_cases hval : value = [] <;>
    simp [hr, hf, ht, hval, rank]

theorem optKey_regex (v : Str) : optKey (("regex=").toList ++ v) = ("regex").toList := by
  unfold optKey
  show List.takeWhile (fun x => x != '=') ('r' :: 'e' :: 'g' :: 'e' :: 'x' :: '=' :: v) = _
  simp [List.takeWhile_cons]

theorem regex_not_accepted (allowed : List Str) (h : ("regex").toList ∉ allowed) (v : Str) :
    ¬ accepted allowed (("regex=").toList ++ v) := by
  rintro ⟨-, hk⟩
  rw [optKey_regex] at hk
  exact h hk

theorem rejectText_regex (v : Str) :
    rejectText (("regex=").toList ++ v) =
      ("Unknown option: ").toList ++ (("regex=").toList ++ v) ++ ("\n").toList := by
  unfold rejectText
  have : '=' ∈ ("regex=").toList ++ v := by
    show '=' ∈ 'r' :: 'e' :: 'g' :: 'e' :: 'x' :: '=' :: v
    simp
  rw [if_pos this]

end cbt

/-! ## The claims -/

namespace cbt
open Spec bigtable

/-- Claim C1: for every option list of `read` that parses to a map in which
`prefix` is non-empty and `start` or `end` is non-empty, whatever other options
are present, the command writes the mutual-exclusion text naming "start"/"end"
and "prefix" to the client's error stream and does nothing else: `rowRange` and
`readOption` are not reached and no `GetRows` call is made. The check is the
one of `DoRead` (lines 120-123), made before `rowRange` is called. -/
theorem DoRead_rejects_prefix_with_start_or_end (client : Client) (env : GoMap)
    (table : Str) (opts : List Str) (parsed : GoMap)
    (hparse : readOpts [] opts = .ok parsed)
    (hpfx : parsed.get ("prefix").toList ≠ [])
    (hse : parsed.get ("start").toList ≠ [] ∨ parsed.get ("end").toList ≠ []) :
    DoRead client env (table :: opts) =
      [Effect.write Stream.ErrStream
        ("\"start\"/\"end\" may not be mixed with \"prefix\"").toList] := by
  unfold DoRead
  simp only [hparse]
  rw [if_pos ⟨hse, hpfx⟩]

theorem DoRead_rejects_prefix_with_start_or_end_witness :
    DoRead sampleClient [] [("table1").toList, ("count=3").toList, ("end=b").toList,
        ("prefix=a").toList, ("family=cf").toList] =
      [Effect.write Stream.ErrStream
        ("\"start\"/\"end\" may not be mixed with \"prefix\"").toList] :=
  DoRead_rejects_prefix_with_start_or_end sampleClient [] ("table1").toList
    [("count=3").toList, ("end=b").toList, ("prefix=a").toList, ("family=cf").toList]
    [(("family").toList, ("cf").toList), (("prefix").toList, ("a").toList),
     (("end").toList, ("b").toList), (("count").toList, ("3").toList)]
    (by rfl) (by decide) (by decide)

/-- Claim C4: `rowRange` never fails and returns the range of the reference
definition `Spec.rowRangeSpec` for every map: the prefix range when `prefix` is
non-empty (whatever `start` and `end` hold), else `[start, end)` when `end` is
non-empty, else `[start, ∞)` when `start` is non-empty, else the unbounded
range; with the three literal cases `end=m`, `start=m` and the empty map. -/
theorem rowRange_eq_rowRangeSpec (m : GoMap) :
    rowRange m = .ok (rowRangeSpec m) ∧
    rowRange [(("end").toList, ("m").toList)] = .ok (RowRange.NewRange [] ("m").toList) ∧
    rowRange [(("start").toList, ("m").toList)] = .ok (RowRange.InfiniteRange ("m").toList) ∧
    rowRange [] = .ok RowRange.zero := by
  refine ⟨?_, rfl, rfl, rfl⟩
  unfold rowRange rowRangeSpec
  by_cases hp : m.get ("prefix").toList = []
  · by_cases he : m.get ("end").toList = []
    · by_cases hs : m.get ("start").toList = [] <;> simp [hp, he, hs]
    · simp [hp, he]
  · simp [hp]

/-- Claim C5: the option loops of `read` and `lookup` succeed exactly when
every raw argument contains `=` and the text before its first `=` is an allowed
key of the command; otherwise the command stops at the first argument that is
not accepted, writes "Invalid option: " (no `=`) or "Unknown option: " followed
by the whole argument and a newline, and does nothing else: no builder runs
and no call of the storage client is made. -/
theorem option_parsing_accepts_iff (client : Client) (env : GoMap) (table key : Str)
    (opts : List Str) :
    ((∃ m, readOpts [] opts = .ok m) ↔ ∀ a ∈ opts, accepted readAllowed a) ∧
    ((∃ m, lookupOpts [] opts = .ok m) ↔ ∀ a ∈ opts, accepted lookupAllowed a) ∧
    (∀ pre a post, opts = pre ++ a :: post → (∀ x ∈ pre, accepted readAllowed x) →
      ¬ accepted readAllowed a →
      DoRead client env (table :: opts) = [Effect.write Stream.osStderr (rejectText a)]) ∧
    (∀ pre a post, opts = pre ++ a :: post → (∀ x ∈ pre, accepted lookupAllowed x) →
      ¬ accepted lookupAllowed a →
      DoLookup client env (table :: key :: opts) =
        [Effect.write Stream.ErrStream (rejectText a)]) := by
  refine ⟨?_, ?_, ?_, ?_⟩
  · rw [readOpts_eq_parse]; exact parse_ok_iff _ _ _
  · rw [lookupOpts_eq_parse]; exact parse_ok_iff _ _ _
  · intro pre a post hopts hpre ha
    have h := parse_first_reject readAllowed [] pre post a hpre ha
    unfold DoRead
    simp only [readOpts_eq_parse, hopts, h]
  · intro pre a post hopts hpre ha
    have h := parse_first_reject lookupAllowed [] pre post a hpre ha
    unfold DoLookup
    simp only [lookupOpts_eq_parse, hopts, h]

theorem option_parsing_accepts_iff_witness :
    DoRead sampleClient [] [("table1").toList, ("count=3").toList, ("foo=bar").toList,
        ("nonsense").toList] =
      [Effect.write Stream.osStderr ("Unknown option: foo=bar\n").toList] ∧
    DoLookup sampleClient [] [("table1").toList, ("row1").toList, ("version").toList] =
      [Effect.write Stream.ErrStream ("Invalid option: version\n").toList] :=
  ⟨(option_parsing_accepts_iff sampleClient [] ("table1").toList [] _).2.2.1
      [("count=3").toList] ("foo=bar").toList [("nonsense").toList] rfl (by decide) (by decide),
   (option_parsing_accepts_iff sampleClient [] ("table1").toList ("row1").toList _).2.2.2
      [] ("version").toList [] rfl (by decide) (by decide)⟩

/-- Claim C6: when the option loop of `read` or `lookup` succeeds, the keys of
the map are exactly the keys that occur in the arguments, and each key is
mapped to the text after the first `=` of the last argument with that key,
taken as it is (`Spec.lastVal`). -/
theorem parsed_map_last_occurrence_wins (opts : List Str) (m : GoMap)
    (h : readOpts [] opts = .ok m ∨ lookupOpts [] opts = .ok m) :
    (∀ k, k ∈ m.keys ↔ k ∈ opts.map optKey) ∧
    (∀ k, m.find? k = lastVal opts k) := by
  have hfind : ∀ k, m.find? k = lastVal opts k := by
    intro k
    rcases h with h | h
    · exact readOpts_find opts m h k
    · exact lookupOpts_find opts m h k
  refine ⟨fun k => ?_, hfind⟩
  rw [← GoMap.find?_isSome_iff, hfind, lastVal_isSome_iff]

theorem parsed_map_last_occurrence_wins_witness :
    (∀ k, k ∈ GoMap.keys [(("value").toList, ("x =y ").toList), (("count").toList, ("1").toList)]
        ↔ k ∈ [("value= a").toList, ("count=1").toList, ("value=x =y ").toList].map optKey) ∧
    (∀ k, GoMap.find? [(("value").toList, ("x =y ").toList), (("count").toList, ("1").toList)] k
        = lastVal [("value= a").toList, ("count=1").toList, ("value=x =y ").toList] k) :=
  parsed_map_last_occurrence_wins
    [("value= a").toList, ("count=1").toList, ("value=x =y ").toList]
    [(("value").toList, ("x =y ").toList), (("count").toList, ("1").toList)] (Or.inl rfl)

/-- Claim C3: when `readOption` succeeds, the filters attached by row-filter
options of the result are: none when no filter is derived, the filter itself
when exactly one is derived, and the single chain of all derived filters, in
derivation order, when two or more are derived; there is never more than one
row-filter option. -/
theorem readOption_attaches_combined_filter (m : GoMap) (ro : List ReadOption)
    (h : readOption m = .ok ro) :
    ∃ fils, derivedFilters m = .ok fils ∧
      (fils = [] → ro.filterMap rowFilter? = []) ∧
      (∀ f, fils = [f] → ro.filterMap rowFilter? = [f]) ∧
      (2 ≤ fils.length → ro.filterMap rowFilter? = [Filter.ChainFilters fils]) ∧
      (ro.filterMap rowFilter?).length ≤ 1 := by
  obtain ⟨fils, c, hd, -, hro⟩ := readOption_ok_inv m ro h
  refine ⟨fils, hd, ?_, ?_, ?_, ?_⟩
  · intro hf
    rw [hro, readOptionsOf_filterMap, hf]; rfl
  · intro f hf
    rw [hro, readOptionsOf_filterMap, hf]; rfl
  · intro hlen
    rw [hro, readOptionsOf_filterMap]
    rcases fils with _ | ⟨f, _ | ⟨g, rest⟩⟩
    · simp at hlen
    · simp at hlen
    · rfl
  · rw [hro, readOptionsOf_filterMap]
    cases combine fils <;> simp

theorem readOption_attaches_combined_filter_witness :
    ∃ fils, derivedFilters [(("family").toList, ("cf1").toList), (("value").toList, ("x").toList)]
        = .ok fils ∧
      (fils = [] → List.filterMap rowFilter?
        [ReadOption.RowFilter (Filter.ChainFilters
          [Filter.FamilyFilter ("^cf1$").toList, Filter.ValueFilter ("x").toList])] = []) ∧
      (∀ f, fils = [f] → List.filterMap rowFilter?
        [ReadOption.RowFilter (Filter.ChainFilters
          [Filter.FamilyFilter ("^cf1$").toList, Filter.ValueFilter ("x").toList])] = [f]) ∧
      (2 ≤ fils.length → List.filterMap rowFilter?
        [ReadOption.RowFilter (Filter.ChainFilters
          [Filter.FamilyFilter ("^cf1$").toList, Filter.ValueFilter ("x").toList])]
          = [Filter.ChainFilters fils]) ∧
      (List.filterMap rowFilter?
        [ReadOption.RowFilter (Filter.ChainFilters
          [Filter.FamilyFilter ("^cf1$").toList, Filter.ValueFilter ("x").toList])]).length ≤ 1 :=
  readOption_attaches_combined_filter
    [(("family").toList, ("cf1").toList), (("value").toList, ("x").toList)]
    [ReadOption.RowFilter (Filter.ChainFilters
      [Filter.FamilyFilter ("^cf1$").toList, Filter.ValueFilter ("x").toList])] rfl

/-- Claim C7: `readOption` fails exactly when one of `version`, `from`, `to`,
`count` has a non-empty value that `strconv.ParseInt(v, 0, 64)` rejects; a
failure carries no read options, and `read` and `lookup` then write the error
(or, for `read`, the earlier mutual-exclusion text) and make no call of the
storage client; storing any value under `regex`, `family` or `value` does not
change whether `readOption` fails. -/
theorem readOption_fails_iff_bad_number (m : GoMap) :
    ((∃ e, readOption m = .error e) ↔
      ∃ k ∈ [("version").toList, ("from").toList, ("to").toList, ("count").toList],
        m.get k ≠ [] ∧ ∃ e, strconv.ParseInt (m.get k) = .error e) ∧
    (∀ (client : Client) (env : GoMap) (table : Str) (opts : List Str) (e : strconv.NumError),
      readOpts [] opts = .ok m → readOption m = .error e →
      DoRead client env (table :: opts) =
        if (m.get ("start").toList ≠ [] ∨ m.get ("end").toList ≠ [])
            ∧ m.get ("prefix").toList ≠ [] then
          [Effect.write Stream.ErrStream
            ("\"start\"/\"end\" may not be mixed with \"prefix\"").toList]
        else
          [Effect.writeErr Stream.ErrStream ("Invalid options: ").toList (GoError.num e)
            ("\n").toList]) ∧
    (∀ (client : Client) (env : GoMap) (table key : Str) (opts : List Str)
        (e : strconv.NumError),
      lookupOpts [] opts = .ok m → readOption m = .error e →
      DoLookup client env (table :: key :: opts) =
        [Effect.writeErr Stream.ErrStream ("Invalid options: ").toList (GoError.num e)
          ("\n").toList]) ∧
    (∀ k ∈ [("regex").toList, ("family").toList, ("value").toList], ∀ v,
      (∃ e, readOption (m.set k v) = .error e) ↔ ∃ e, readOption m = .error e) := by
  refine ⟨?_, ?_, ?_, ?_⟩
  · rw [readOption_error_iff]
    simp only [optInt_error_iff, List.mem_cons, List.mem_singleton, List.not_mem_nil, or_false,
      exists_eq_or_imp, exists_eq_left]
  · intro client env table opts e hp he
    unfold DoRead
    simp only [hp, he, rowRange]
  · intro client env table key opts e hp he
    unfold DoLookup
    simp only [hp, he]
  · intro k hk v
    have hget : ∀ k', k' ∈ [("version").toList, ("from").toList, ("to").toList,
        ("count").toList] → (m.set k v).get k' = m.get k' := by
      intro k' hk'
      rw [GoMap.get_set, if_neg]
      intro hkk
      subst hkk
      revert hk hk'
      simp only [List.mem_cons, List.mem_singleton, List.not_mem_nil, or_false]
      rintro (h | h | h | h) (h' | h' | h') <;> rw [h] at h' <;> revert h' <;> decide
    rw [readOption_error_iff, readOption_error_iff,
      hget ("version").toList (by decide), hget ("from").toList (by decide),
      hget ("to").toList (by decide), hget ("count").toList (by decide)]

/-- Claim C2: for raw arguments with pairwise distinct keys and any
permutation of them, the option loop of `read` succeeds on both or on neither,
and when it succeeds `readOption` (and the derived filters) are the same for
both; the derived filters of any map are in the fixed order regex, family,
version, timestamp range, value, each kind at most once; and
`value=x version=2 family=cf1` gives the chain
`[FamilyFilter ^cf1$, LatestNFilter 2, ValueFilter x]`. -/
theorem filter_order_independent_of_argument_order (opts opts' : List Str)
    (hperm : opts.Perm opts') (hkeys : (opts.map optKey).Nodup) :
    ((∃ m, readOpts [] opts = .ok m) ↔ ∃ m', readOpts [] opts' = .ok m') ∧
    (∀ m, readOpts [] opts = .ok m →
      ∃ m', readOpts [] opts' = .ok m' ∧ readOption m' = readOption m ∧
        derivedFilters m' = derivedFilters m) ∧
    (∀ m fils, derivedFilters m = .ok fils → (fils.map rank).Pairwise (· < ·)) ∧
    (readOpts [] [("value=x").toList, ("version=2").toList, ("family=cf1").toList] =
        .ok [(("family").toList, ("cf1").toList), (("version").toList, ("2").toList),
             (("value").toList, ("x").toList)] ∧
      readOption [(("family").toList, ("cf1").toList), (("version").toList, ("2").toList),
             (("value").toList, ("x").toList)] =
        .ok [ReadOption.RowFilter (Filter.ChainFilters
          [Filter.FamilyFilter ("^cf1$").toList, Filter.LatestNFilter 2,
           Filter.ValueFilter ("x").toList])]) := by
  refine ⟨?_, ?_, ?_, rfl, rfl⟩
  · simp only [readOpts_eq_parse, parse_ok_iff]
    exact ⟨fun h a ha => h a (hperm.mem_iff.2 ha), fun h a ha => h a (hperm.mem_iff.1 ha)⟩
  · intro m hm
    have hok : ∃ m', readOpts [] opts' = .ok m' := by
      rw [readOpts_eq_parse, parse_ok_iff]
      have h1 := (parse_ok_iff readAllowed [] opts).1 ⟨m, by rw [← readOpts_eq_parse]; exact hm⟩
      intro a ha
      exact h1 a (hperm.mem_iff.2 ha)
    obtain ⟨m', hm'⟩ := hok
    refine ⟨m', hm', ?_⟩
    apply readOption_congr
    intro k
    have h1 := readOpts_find opts m hm k
    have h2 := readOpts_find opts' m' hm' k
    unfold GoMap.get
    rw [h1, h2, lastVal_perm opts opts' hperm hkeys k]
  · intro m fils h
    obtain ⟨v, lo, hi, -, -, -, hf⟩ := derivedFilters_ok_inv m fils h
    rw [hf]
    exact filtersOf_sorted _ _ _ _ _ _

theorem filter_order_independent_of_argument_order_witness :
    ∃ m', readOpts [] [("family=cf1").toList, ("value=x").toList, ("version=2").toList]
        = .ok m' ∧
      readOption m' = readOption [(("family").toList, ("cf1").toList),
        (("version").toList, ("2").toList), (("value").toList, ("x").toList)] ∧
      derivedFilters m' = derivedFilters [(("family").toList, ("cf1").toList),
        (("version").toList, ("2").toList), (("value").toList, ("x").toList)] :=
  (filter_order_independent_of_argument_order
    [("value=x").toList, ("version=2").toList, ("family=cf1").toList]
    [("family=cf1").toList, ("value=x").toList, ("version=2").toList]
    (by decide) (by decide)).2.1
    [(("family").toList, ("cf1").toList), (("version").toList, ("2").toList),
      (("value").toList, ("x").toList)] rfl

/-- Claim C8: when `count` is non-empty and parses to `n` and `readOption`
succeeds, the result is the row-filter option of the derived filters (if any)
followed by the single option `LimitRows n`; the limit is not part of the
filters, the derived filters are the same for every map that differs in
`count` only, and without `count` the result is the row-filter option alone.
`count=5 version=0x3 family=cf` gives the chain
`[FamilyFilter ^cf$, LatestNFilter 3]` and `LimitRows 5`. -/
theorem count_is_separate_read_option (m : GoMap) (n : Int) (ro : List ReadOption)
    (hc : m.get ("count").toList ≠ [])
    (hn : strconv.ParseInt (m.get ("count").toList) = .ok n)
    (h : readOption m = .ok ro) :
    ∃ fils, derivedFilters m = .ok fils ∧
      ro = ((combine fils).map ReadOption.RowFilter).toList ++ [ReadOption.LimitRows n] ∧
      ro.filterMap rowFilter? = (combine fils).toList ∧
      ro.filterMap limit? = [n] ∧
      (∀ m' : GoMap, (∀ k, k ≠ ("count").toList → m'.get k = m.get k) →
        derivedFilters m' = .ok fils) ∧
      readOption (m.set ("count").toList []) =
        .ok ((combine fils).map ReadOption.RowFilter).toList ∧
      (readOpts [] [("count=5").toList, ("version=0x3").toList, ("family=cf").toList] =
          .ok [(("family").toList, ("cf").toList), (("version").toList, ("0x3").toList),
               (("count").toList, ("5").toList)] ∧
        readOption [(("family").toList, ("cf").toList), (("version").toList, ("0x3").toList),
               (("count").toList, ("5").toList)] =
          .ok [ReadOption.RowFilter (Filter.ChainFilters
                [Filter.FamilyFilter ("^cf$").toList, Filter.LatestNFilter 3]),
               ReadOption.LimitRows 5]) := by
  obtain ⟨fils, c, hd, hcount, hro⟩ := readOption_ok_inv m ro h
  rw [optInt_of_ParseInt _ n hc hn] at hcount
  injection hcount with hcount
  subst hcount
  have hro' : ro = ((combine fils).map ReadOption.RowFilter).toList ++ [ReadOption.LimitRows n] :=
    hro
  refine ⟨fils, hd, hro', ?_, ?_, ?_, ?_, rfl, rfl⟩
  · rw [hro, readOptionsOf_filterMap]
  · rw [hro']
    cases combine fils <;> simp [limit?]
  · intro m' hm'
    rw [derivedFilters_congr m m' hm', hd]
  · have hdf : derivedFilters (m.set ("count").toList []) = derivedFilters m := by
      apply derivedFilters_congr
      intro k hk
      rw [GoMap.get_set, if_neg hk]
    have hg : (m.set ("count").toList []).get ("count").toList = [] := by
      rw [GoMap.get_set, if_pos rfl]
    rw [readOption_eq, hdf, hd, hg, optInt_nil]
    simp [Except.bind, readOptionsOf]

theorem count_is_separate_read_option_witness :
    ∃ fils, derivedFilters [(("family").toList, ("cf").toList), (("version").toList, ("0x3").toList),
        (("count").toList, ("5").toList)] = .ok fils ∧
      [ReadOption.RowFilter (Filter.ChainFilters
          [Filter.FamilyFilter ("^cf$").toList, Filter.LatestNFilter 3]), ReadOption.LimitRows 5]
        = ((combine fils).map ReadOption.RowFilter).toList ++ [ReadOption.LimitRows 5] := by
  obtain ⟨fils, h1, h2, -⟩ := count_is_separate_read_option
    [(("family").toList, ("cf").toList), (("version").toList, ("0x3").toList),
      (("count").toList, ("5").toList)] 5
    [ReadOption.RowFilter (Filter.ChainFilters
      [Filter.FamilyFilter ("^cf$").toList, Filter.LatestNFilter 3]), ReadOption.LimitRows 5]
    (by decide) rfl rfl
  exact ⟨fils, h1, h2⟩

/-- Claim C9, amended: when the filters are derived without error, no
timestamp-range filter is derived if `from` and `to` are both empty, and
exactly one is derived if `from` or `to` is a non-empty integer other than
-62135596800 (the Unix second of the zero `time.Time`, which the code reads as
"unset"): its bounds are `time.Unix(from, 0)` and `time.Unix(to, 0)`, the zero
time standing for the side that is not set; `time.Unix(t, 0)` is the instant
`t` seconds after the Unix epoch for every parsed `t`. -/
theorem timestamp_filter_of_bounds (m : GoMap) (fils : List Filter)
    (h : derivedFilters m = .ok fils) :
    (m.get ("from").toList = [] → m.get ("to").toList = [] →
      fils.filter isTimestampRange = []) ∧
    (∀ a, m.get ("from").toList ≠ [] → strconv.ParseInt (m.get ("from").toList) = .ok a →
      m.get ("to").toList = [] → a ≠ -62135596800 →
      fils.filter isTimestampRange = [Filter.TimestampRangeFilter (time.Unix a) time.zero]) ∧
    (∀ b, m.get ("from").toList = [] → m.get ("to").toList ≠ [] →
      strconv.ParseInt (m.get ("to").toList) = .ok b → b ≠ -62135596800 →
      fils.filter isTimestampRange = [Filter.TimestampRangeFilter time.zero (time.Unix b)]) ∧
    (∀ a b, m.get ("from").toList ≠ [] → strconv.ParseInt (m.get ("from").toList) = .ok a →
      m.get ("to").toList ≠ [] → strconv.ParseInt (m.get ("to").toList) = .ok b →
      a ≠ -62135596800 ∨ b ≠ -62135596800 →
      fils.filter isTimestampRange =
        [Filter.TimestampRangeFilter (time.Unix a) (time.Unix b)]) ∧
    (∀ a, strconv.ParseInt (m.get ("from").toList) = .ok a → (time.Unix a).UnixSeconds = a) ∧
    (∀ b, strconv.ParseInt (m.get ("to").toList) = .ok b → (time.Unix b).UnixSeconds = b) := by
  obtain ⟨v, lo, hi, -, hlo, hhi, hf⟩ := derivedFilters_ok_inv m fils h
  obtain ⟨hlo1, hlo2⟩ := optInt_ok_nil_iff _ _ hlo
  obtain ⟨hhi1, hhi2⟩ := optInt_ok_nil_iff _ _ hhi
  rw [hf, filter_isTs_filtersOf]
  have hz : time.zero.IsZero = true := rfl
  have hne : ∀ a s, strconv.ParseInt s = .ok a → a ≠ -62135596800 →
      (time.Unix a).IsZero = false := by
    intro a s ha hne
    obtain ⟨h1, h2⟩ := strconv.ParseInt_range s a ha
    cases hb : (time.Unix a).IsZero
    · rfl
    · exact absurd ((time.Unix_IsZero_iff a h1 h2).1 hb) hne
  refine ⟨?_, ?_, ?_, ?_, ?_, ?_⟩
  · intro h1 h2
    rw [hlo1 h1, hhi1 h2]
    simp [boundTime, hz]
  · intro a h1 ha h2 hna
    rw [hlo2 a h1 ha, hhi1 h2]
    simp [boundTime, hz, hne a _ ha hna]
  · intro b h1 h2 hb hnb
    rw [hlo1 h1, hhi2 b h2 hb]
    simp [boundTime, hz, hne b _ hb hnb]
  · intro a b h1 ha h2 hb hnab
    rw [hlo2 a h1 ha, hhi2 b h2 hb]
    rcases hnab with hna | hnb
    · simp [boundTime, hne a _ ha hna]
    · simp [boundTime, hne b _ hb hnb]
  · intro a ha
    obtain ⟨h1, h2⟩ := strconv.ParseInt_range _ a ha
    exact time.Unix_UnixSeconds a h1 h2
  · intro b hb
    obtain ⟨h1, h2⟩ := strconv.ParseInt_range _ b hb
    exact time.Unix_UnixSeconds b h1 h2

theorem timestamp_filter_of_bounds_witness :
    List.filter isTimestampRange
        [Filter.FamilyFilter ("^cf$").toList,
         Filter.TimestampRangeFilter (time.Unix 1500000000) time.zero] =
      [Filter.TimestampRangeFilter (time.Unix 1500000000) time.zero] :=
  (timestamp_filter_of_bounds
    [(("from").toList, ("1500000000").toList), (("family").toList, ("cf").toList)]
    [Filter.FamilyFilter ("^cf$").toList,
     Filter.TimestampRangeFilter (time.Unix 1500000000) time.zero] rfl).2.1
    1500000000 (by decide) rfl rfl (by decide)

/-- Claim C9 as stated fails: with `from=-62135596800` alone, `from` is a
non-empty valid integer and no filter is derived (`time.Unix` of it is the zero
time); with `from=5 version=x`, `from` is a valid integer and no filter is
derived either, `readOption` failing on `version`. -/
theorem timestamp_filter_counterexample :
    (readOpts [] [("from=-62135596800").toList] =
        .ok [(("from").toList, ("-62135596800").toList)] ∧
      strconv.ParseInt ("-62135596800").toList = .ok (-62135596800) ∧
      derivedFilters [(("from").toList, ("-62135596800").toList)] = .ok [] ∧
      readOption [(("from").toList, ("-62135596800").toList)] = .ok []) ∧
    (readOpts [] [("from=5").toList, ("version=x").toList] =
        .ok [(("version").toList, ("x").toList), (("from").toList, ("5").toList)] ∧
      strconv.ParseInt ("5").toList = .ok 5 ∧
      derivedFilters [(("version").toList, ("x").toList), (("from").toList, ("5").toList)] =
        .error ⟨("ParseInt").toList, ("x").toList, strconv.ErrKind.ErrSyntax⟩) :=
  ⟨⟨rfl, rfl, rfl, rfl⟩, rfl, rfl, rfl⟩

end cbt

namespace config
open Spec

/-- Claim C10, amended: when the dotfile is read and one of the lines the
scanner yields has an unrecognized key, `Load` fails with the parse error of
the first line that has no `=` or has an unrecognized key: `UnknownKey` naming
that line's key when it has an `=`, `BadLine` naming the line when it has
none. -/
theorem Load_fails_at_first_bad_line (w : World) (s : State) (data : Str)
    (hfile : w.ReadFile (w.Join (os.Getenv s.env ("HOME").toList) (".cbtrc").toList)
      = FileRead.data data)
    (hkey : ∃ line ∈ (bufio.scanLines data).1, '=' ∈ line ∧ lineKey line ∉ dotfileKeys) :
    ∃ pre line post, (bufio.scanLines data).1 = pre ++ line :: post ∧
      (∀ l ∈ pre, goodLine l) ∧ ¬ goodLine line ∧
      (Load w s).2 = some
        (if '=' ∈ line then
          Error.UnknownKey (w.Join (os.Getenv s.env ("HOME").toList) (".cbtrc").toList)
            (lineKey line)
         else
          Error.BadLine (w.Join (os.Getenv s.env ("HOME").toList) (".cbtrc").toList) line) := by
  have hbad : ∃ x ∈ (bufio.scanLines data).1, ¬ goodLine x := by
    obtain ⟨line, hmem, -, hk⟩ := hkey
    exact ⟨line, hmem, fun hg => hk hg.2⟩
  obtain ⟨pre, line, post, hl, hpre, hline⟩ := exists_first_bad goodLine _ hbad
  refine ⟨pre, line, post, hl, hpre, hline, ?_⟩
  apply Load_of_loadLines_error w s data _ hfile
  rw [hl]
  exact loadLines_first_bad _ _ pre post line hpre hline

/-- Claim C10 as stated fails: the dotfile `oops`, `foo=1` has a line with
the unrecognized key `foo`, and `Load` fails with `BadLine` for `oops`, which
does not name `foo`; the dotfile `zone=a`, `foo=1` fails with `UnknownKey` for
`zone`, not for `foo`. -/
theorem Load_unknown_key_counterexample :
    (bufio.scanLines ("oops\nfoo=1").toList).1 = [("oops").toList, ("foo=1").toList] ∧
    lineKey ("foo=1").toList = ("foo").toList ∧
    (Load (sampleWorld ("oops\nfoo=1").toList) sampleState).2 =
      some (Error.BadLine ("/home/u/.cbtrc").toList ("oops").toList) ∧
    (bufio.scanLines ("zone=a\nfoo=1").toList).1 = [("zone=a").toList, ("foo=1").toList] ∧
    (Load (sampleWorld ("zone=a\nfoo=1").toList) sampleState).2 =
      some (Error.UnknownKey ("/home/u/.cbtrc").toList ("zone").toList) := by
  refine ⟨?_, ?_, ?_, ?_, ?_⟩ <;> rfl

theorem Load_fails_at_first_bad_line_witness :
    ∃ pre line post,
      (bufio.scanLines ("project = p\nfoo = 1\nbar").toList).1 = pre ++ line :: post ∧
      (∀ l ∈ pre, goodLine l) ∧ ¬ goodLine line ∧
      (Load (sampleWorld ("project = p\nfoo = 1\nbar").toList) sampleState).2 = some
        (if '=' ∈ line then
          Error.UnknownKey ((sampleWorld ("project = p\nfoo = 1\nbar").toList).Join
            (os.Getenv sampleState.env ("HOME").toList) (".cbtrc").toList) (lineKey line)
         else
          Error.BadLine ((sampleWorld ("project = p\nfoo = 1\nbar").toList).Join
            (os.Getenv sampleState.env ("HOME").toList) (".cbtrc").toList) line) :=
  Load_fails_at_first_bad_line (sampleWorld ("project = p\nfoo = 1\nbar").toList) sampleState
    ("project = p\nfoo = 1\nbar").toList rfl
    ⟨("foo = 1").toList, by decide, by decide, by decide⟩

/-- Claim C11, amended: every line the scanner yields, the empty ones
included, is required to be `key = value` with a key among project, instance,
creds. When the dotfile is read, the loop over the lines passes exactly when
every scanned line is of that form, `Load` returns a parse error (`BadLine` or
`UnknownKey`) exactly when some scanned line is not, and the error is the one of
the first such line: `BadLine` with the line when it has no `=`, `UnknownKey`
with its key otherwise. -/
theorem Load_parse_error_iff_bad_line (w : World) (s : State) (data : Str)
    (hfile : w.ReadFile (w.Join (os.Getenv s.env ("HOME").toList) (".cbtrc").toList)
      = FileRead.data data) :
    ((loadLines (w.Join (os.Getenv s.env ("HOME").toList) (".cbtrc").toList) s.c
        (bufio.scanLines data).1).2 = none ↔
      ∀ line ∈ (bufio.scanLines data).1, goodLine line) ∧
    ((∃ e, (Load w s).2 = some e ∧ isParseError e = true) ↔
      ∃ line ∈ (bufio.scanLines data).1, ¬ goodLine line) ∧
    (∀ pre line post, (bufio.scanLines data).1 = pre ++ line :: post →
      (∀ l ∈ pre, goodLine l) → ¬ goodLine line →
      (Load w s).2 = some
        (if '=' ∈ line then
          Error.UnknownKey (w.Join (os.Getenv s.env ("HOME").toList) (".cbtrc").toList)
            (lineKey line)
         else
          Error.BadLine (w.Join (os.Getenv s.env ("HOME").toList) (".cbtrc").toList) line)) := by
  have hfirst : ∀ pre line post, (bufio.scanLines data).1 = pre ++ line :: post →
      (∀ l ∈ pre, goodLine l) → ¬ goodLine line →
      (Load w s).2 = some (lineError
        (w.Join (os.Getenv s.env ("HOME").toList) (".cbtrc").toList) line) := by
    intro pre line post hl hpre hline
    apply Load_of_loadLines_error w s data _ hfile
    rw [hl]
    exact loadLines_first_bad _ _ pre post line hpre hline
  refine ⟨loadLines_none_iff _ _ _, ?_, hfirst⟩
  constructor
  · rintro ⟨e, he, hp⟩
    by_contra hno
    have hall : ∀ line ∈ (bufio.scanLines data).1, goodLine line := by
      intro l hl
      by_contra hg
      exact hno ⟨l, hl, hg⟩
    have := Load_of_loadLines_ok w s data e hfile ((loadLines_none_iff _ _ _).2 hall) he
    rw [this] at hp
    cases hp
  · intro hbad
    obtain ⟨pre, line, post, hl, hpre, hline⟩ := exists_first_bad goodLine _ hbad
    refine ⟨_, hfirst pre line post hl hpre hline, ?_⟩
    unfold lineError
    by_cases hin : '=' ∈ line
    · rw [if_pos hin]; rfl
    · rw [if_neg hin]; rfl

theorem Load_parse_error_iff_bad_line_witness :
    (loadLines ((sampleWorld ("project = p\ninstance = i\n").toList).Join
        (os.Getenv sampleState.env ("HOME").toList) (".cbtrc").toList) sampleState.c
        (bufio.scanLines ("project = p\ninstance = i\n").toList).1).2 = none ↔
      ∀ line ∈ (bufio.scanLines ("project = p\ninstance = i\n").toList).1, goodLine line :=
  (Load_parse_error_iff_bad_line (sampleWorld ("project = p\ninstance = i\n").toList)
    sampleState ("project = p\ninstance = i\n").toList rfl).1

/-- Claim C11 as stated fails: in the dotfile `project = p`, empty line,
`instance = i`, every non-empty line is well formed, yet the empty line is not
skipped: `Load` fails with `BadLine` for the empty line. -/
theorem Load_empty_line_counterexample :
    (bufio.scanLines ("project = p\n\ninstance = i\n").toList).1 =
      [("project = p").toList, [], ("instance = i").toList] ∧
    (∀ line ∈ (bufio.scanLines ("project = p\n\ninstance = i\n").toList).1,
      line ≠ [] → goodLine line) ∧
    (Load (sampleWorld ("project = p\n\ninstance = i\n").toList) sampleState).2 =
      some (Error.BadLine ("/home/u/.cbtrc").toList []) := by
  refine ⟨rfl, by decide, rfl⟩

/-- Claim C12: the effects of `setFromGcloud` hold a run of the helper
subprocess exactly when the project is empty or the credentials path, once
completed from the environment variable, is empty; when both are non-empty the
function returns `nil` and project, instance and token source are those it
started with, the credentials path being the completed one. -/
theorem helper_invoked_iff_project_or_creds_empty (w : World) (s : State) :
    ∃ effs, (setFromGcloud w s).1.log = s.log ++ effs ∧
      ((∃ cmd args, Effect.exec cmd args ∈ effs) ↔
        (s.c.Project = [] ∨ completedCreds s = [])) ∧
      (s.c.Project ≠ [] → completedCreds s ≠ [] →
        (setFromGcloud w s).2 = none ∧
        (setFromGcloud w s).1.c.Project = s.c.Project ∧
        (setFromGcloud w s).1.c.Instance = s.c.Instance ∧
        (setFromGcloud w s).1.c.Creds = completedCreds s ∧
        (setFromGcloud w s).1.c.TokenSource = s.c.TokenSource) := by
  obtain ⟨effs, hlog, hno⟩ := steps_log s
  have hc : (projectStep (credsStep s)).c = { s.c with Creds := completedCreds s } := by
    rw [projectStep_c, credsStep_c]
  rcases setFromGcloud_cases w s with ⟨h1, h2, heq⟩ | ⟨hcond, err, -, heq⟩ | ⟨hcond, g, -, heq⟩
  · refine ⟨effs, by rw [heq]; exact hlog, ?_, ?_⟩
    · constructor
      · rintro ⟨cmd, args, hmem⟩
        exact absurd hmem (hno cmd args)
      · rintro (h | h)
        · exact absurd h h2
        · exact absurd h h1
    · intro _ _
      rw [heq]
      simp only [hc, and_self]
  · refine ⟨effs ++ [Effect.exec (helperCmd w) helperArgs], ?_, ?_, ?_⟩
    · rw [heq]
      simp only [hlog, List.append_assoc]
    · constructor
      · intro _
        by_contra hne
        apply hcond
        constructor
        · intro h; exact hne (Or.inr h)
        · intro h; exact hne (Or.inl h)
      · intro _
        exact ⟨helperCmd w, helperArgs, by simp⟩
    · intro h2 h1
      exact absurd ⟨h1, h2⟩ hcond
  · refine ⟨effs ++ [Effect.exec (helperCmd w) helperArgs] ++
        (if s.c.Project = [] ∧ g.Project ≠ [] then
          [Effect.write (("gcloud active project is \"").toList ++ g.Project ++
            ("\"\n").toList)] else []), ?_, ?_, ?_⟩
    · rw [heq]
      unfold adoptStep
      have hpr : (projectStep (credsStep s)).c.Project = s.c.Project := by rw [hc]
      by_cases hp : s.c.Project = [] ∧ g.Project ≠ [] <;>
        by_cases hcr : (projectStep (credsStep s)).c.Creds = [] <;>
        simp [hp, hcr, hpr, hlog]
    · constructor
      · intro _
        by_contra hne
        apply hcond
        constructor
        · intro h; exact hne (Or.inr h)
        · intro h; exact hne (Or.inl h)
      · intro _
        exact ⟨helperCmd w, helperArgs, by simp⟩
    · intro h2 h1
      exact absurd ⟨h1, h2⟩ hcond


/-- Claim C13: for a configuration without token source, when `setFromGcloud`
returns `nil` the token source is set exactly when the credentials path is
empty: never both set, never both absent. -/
theorem token_source_iff_no_credentials_path (w : World) (s : State)
    (h0 : s.c.TokenSource = none) (hok : (setFromGcloud w s).2 = none) :
    (((setFromGcloud w s).1.c.TokenSource).isSome = true ↔ (setFromGcloud w s).1.c.Creds = []) ∧
    ¬ (((setFromGcloud w s).1.c.TokenSource).isSome = true ∧
        (setFromGcloud w s).1.c.Creds ≠ []) ∧
    ¬ ((setFromGcloud w s).1.c.TokenSource = none ∧ (setFromGcloud w s).1.c.Creds = []) := by
  have hc : (projectStep (credsStep s)).c = { s.c with Creds := completedCreds s } := by
    rw [projectStep_c, credsStep_c]
  have key : ((setFromGcloud w s).1.c.TokenSource).isSome = true ↔
      (setFromGcloud w s).1.c.Creds = [] := by
    rcases setFromGcloud_cases w s with ⟨h1, h2, heq⟩ | ⟨hcond, err, -, heq⟩ | ⟨hcond, g, -, heq⟩
    · rw [heq]
      simp only [hc, h0, Option.isSome_none, Bool.false_eq_true, false_iff]
      exact h1
    · rw [heq] at hok
      cases hok
    · rw [heq]
      obtain ⟨-, -, hcr, hts, -⟩ := adoptStep_c w g
        { projectStep (credsStep s) with
          log := (projectStep (credsStep s)).log ++ [Effect.exec (helperCmd w) helperArgs] }
      simp only at hcr hts ⊢
      rw [hcr, hts, hc]
      by_cases hcc : completedCreds s = []
      · simp [hcc]
      · simp [hcc, h0]
  refine ⟨key, ?_, ?_⟩
  · rintro ⟨h1, h2⟩
    exact h2 (key.1 h1)
  · rintro ⟨h1, h2⟩
    have := key.2 h2
    rw [h1] at this
    cases this

theorem token_source_iff_no_credentials_path_witness :
    (((setFromGcloud (helperWorld ("out").toList
          ⟨("proj").toList, ⟨("tok").toList, time.Unix 1500000000⟩⟩) sampleState).1.c.TokenSource
        ).isSome = true ↔
      (setFromGcloud (helperWorld ("out").toList
          ⟨("proj").toList, ⟨("tok").toList, time.Unix 1500000000⟩⟩) sampleState).1.c.Creds = []) ∧
    ¬ (((setFromGcloud (helperWorld ("out").toList
          ⟨("proj").toList, ⟨("tok").toList, time.Unix 1500000000⟩⟩) sampleState).1.c.TokenSource
        ).isSome = true ∧
      (setFromGcloud (helperWorld ("out").toList
          ⟨("proj").toList, ⟨("tok").toList, time.Unix 1500000000⟩⟩) sampleState).1.c.Creds ≠ []) ∧
    ¬ ((setFromGcloud (helperWorld ("out").toList
          ⟨("proj").toList, ⟨("tok").toList, time.Unix 1500000000⟩⟩) sampleState).1.c.TokenSource
        = none ∧
      (setFromGcloud (helperWorld ("out").toList
          ⟨("proj").toList, ⟨("tok").toList, time.Unix 1500000000⟩⟩) sampleState).1.c.Creds = []) :=
  token_source_iff_no_credentials_path
    (helperWorld ("out").toList ⟨("proj").toList, ⟨("tok").toList, time.Unix 1500000000⟩⟩)
    sampleState rfl rfl

/-- Claim C14: when `setFromGcloud` returns `nil`, a non-empty project is kept,
an empty project is replaced by the project of the helper's snapshot, and the
instance is the one it started with; before that, `flag.Parse` puts a project
given as a flag over the one of the dotfile. -/
theorem project_precedence (w : World) (s : State) (hok : (setFromGcloud w s).2 = none) :
    (s.c.Project ≠ [] → (setFromGcloud w s).1.c.Project = s.c.Project) ∧
    (s.c.Project = [] →
      ∃ out g, w.Output (helperCmd w) helperArgs = .ok out ∧ w.Unmarshal out = .ok g ∧
        (setFromGcloud w s).1.c.Project = g.Project) ∧
    (setFromGcloud w s).1.c.Instance = s.c.Instance ∧
    (∀ c : Config, (registerFlagsAndParse w c).Project =
      match w.flags.project with
      | some p => p
      | none => c.Project) := by
  have hc : (projectStep (credsStep s)).c = { s.c with Creds := completedCreds s } := by
    rw [projectStep_c, credsStep_c]
  refine ⟨?_, ?_, ?_, ?_⟩
  · intro hp
    rcases setFromGcloud_cases w s with ⟨h1, h2, heq⟩ | ⟨hcond, err, -, heq⟩ | ⟨hcond, g, -, heq⟩
    · rw [heq, hc]
    · rw [heq] at hok; cases hok
    · rw [heq]
      obtain ⟨hpr, -⟩ := adoptStep_c w g
        { projectStep (credsStep s) with
          log := (projectStep (credsStep s)).log ++ [Effect.exec (helperCmd w) helperArgs] }
      simp only at hpr ⊢
      rw [hpr, hc]
      simp only [hp, if_false]
  · intro hp
    rcases setFromGcloud_cases w s with ⟨h1, h2, heq⟩ | ⟨hcond, err, -, heq⟩ | ⟨hcond, g, hg, heq⟩
    · exact absurd hp h2
    · rw [heq] at hok; cases hok
    · obtain ⟨out, ho, hu⟩ := loadGcloudConfig_ok_inv w _ _ g hg
      refine ⟨out, g, ho, hu, ?_⟩
      rw [heq]
      obtain ⟨hpr, -⟩ := adoptStep_c w g
        { projectStep (credsStep s) with
          log := (projectStep (credsStep s)).log ++ [Effect.exec (helperCmd w) helperArgs] }
      simp only at hpr ⊢
      rw [hpr, hc]
      simp only [hp, if_true]
  · rcases setFromGcloud_cases w s with ⟨h1, h2, heq⟩ | ⟨hcond, err, -, heq⟩ | ⟨hcond, g, -, heq⟩
    · rw [heq, hc]
    · rw [heq, hc]
    · rw [heq]
      obtain ⟨-, hin, -⟩ := adoptStep_c w g
        { projectStep (credsStep s) with
          log := (projectStep (credsStep s)).log ++ [Effect.exec (helperCmd w) helperArgs] }
      simp only at hin ⊢
      rw [hin, hc]
  · intro c
    unfold registerFlagsAndParse
    cases w.flags.project <;> rfl


theorem project_precedence_witness :
    (sampleState.c.Project ≠ [] →
      (setFromGcloud (helperWorld ("out").toList
        ⟨("proj").toList, ⟨("tok").toList, time.Unix 1500000000⟩⟩) sampleState).1.c.Project
        = sampleState.c.Project) ∧
    (sampleState.c.Project = [] →
      ∃ out g, (helperWorld ("out").toList
          ⟨("proj").toList, ⟨("tok").toList, time.Unix 1500000000⟩⟩).Output
          (helperCmd (helperWorld ("out").toList
            ⟨("proj").toList, ⟨("tok").toList, time.Unix 1500000000⟩⟩)) helperArgs = .ok out ∧
        (helperWorld ("out").toList
          ⟨("proj").toList, ⟨("tok").toList, time.Unix 1500000000⟩⟩).Unmarshal out = .ok g ∧
        (setFromGcloud (helperWorld ("out").toList
          ⟨("proj").toList, ⟨("tok").toList, time.Unix 1500000000⟩⟩) sampleState).1.c.Project
          = g.Project) ∧
    (setFromGcloud (helperWorld ("out").toList
        ⟨("proj").toList, ⟨("tok").toList, time.Unix 1500000000⟩⟩) sampleState).1.c.Instance
      = sampleState.c.Instance ∧
    (∀ c : Config, (registerFlagsAndParse (helperWorld ("out").toList
        ⟨("proj").toList, ⟨("tok").toList, time.Unix 1500000000⟩⟩) c).Project =
      match (helperWorld ("out").toList
        ⟨("proj").toList, ⟨("tok").toList, time.Unix 1500000000⟩⟩).flags.project with
      | some p => p
      | none => c.Project) :=
  project_precedence
    (helperWorld ("out").toList ⟨("proj").toList, ⟨("tok").toList, time.Unix 1500000000⟩⟩)
    sampleState rfl

/-- Claim C15, amended: for a starting credentials path without NUL byte, when
`setFromGcloud` returns (with or without error) the credentials path equals
the value of `GOOGLE_APPLICATION_CREDENTIALS`: a non-empty path is kept and
exported, an empty one is filled from the variable and the environment is left
as it was. -/
theorem credentials_path_equals_environment (w : World) (s : State)
    (hnul : Char.ofNat 0 ∉ s.c.Creds) :
    (setFromGcloud w s).1.c.Creds = os.Getenv (setFromGcloud w s).1.env credsVar ∧
    (s.c.Creds ≠ [] →
      (setFromGcloud w s).1.c.Creds = s.c.Creds ∧
      os.Getenv (setFromGcloud w s).1.env credsVar = s.c.Creds) ∧
    (s.c.Creds = [] →
      (setFromGcloud w s).1.env = s.env ∧
      (setFromGcloud w s).1.c.Creds = os.Getenv s.env credsVar) := by
  obtain ⟨henv, hcr⟩ := setFromGcloud_env_creds w s
  rw [henv, hcr, credsStep_env]
  unfold completedCreds
  by_cases h : s.c.Creds = []
  · simp only [h, if_true, ne_eq, not_true_eq_false, false_implies, true_implies, and_self]
  · have hset : os.Getenv (os.Setenv s.env credsVar s.c.Creds) credsVar = s.c.Creds := by
      unfold os.Getenv os.Setenv
      rw [if_neg hnul, GoMap.get_set, if_pos rfl]
    simp only [h, if_false, hset, ne_eq, not_false_eq_true, true_implies, false_implies,
      and_self]

theorem credentials_path_equals_environment_witness :
    (setFromGcloud (sampleWorld [])
        { sampleState with c := { sampleState.c with Creds := ("/k.json").toList } }).1.c.Creds =
      os.Getenv (setFromGcloud (sampleWorld [])
        { sampleState with c := { sampleState.c with Creds := ("/k.json").toList } }).1.env
        credsVar :=
  (credentials_path_equals_environment (sampleWorld [])
    { sampleState with c := { sampleState.c with Creds := ("/k.json").toList } }
    (by decide)).1

/-- Claim C15 as stated fails: a credentials path holding a NUL byte (here
read from the dotfile line `creds = a\0b`) is refused by `os.Setenv`, whose
error is dropped: `Load` and `setFromGcloud` return `nil` with the path in the
configuration and the variable still unset. -/
theorem credentials_path_counterexample :
    (Load (sampleWorld ("project = p\ncreds = a\x00b").toList) sampleState).2 = none ∧
    (Load (sampleWorld ("project = p\ncreds = a\x00b").toList) sampleState).1.c.Creds =
      ("a\x00b").toList ∧
    os.Getenv (Load (sampleWorld ("project = p\ncreds = a\x00b").toList) sampleState).1.env
      credsVar = [] ∧
    (setFromGcloud (sampleWorld [])
      { sampleState with c := { sampleState.c with Project := ("p").toList,
                                                    Creds := ("a\x00b").toList } }).1.c.Creds =
      ("a\x00b").toList ∧
    os.Getenv (setFromGcloud (sampleWorld [])
      { sampleState with c := { sampleState.c with Project := ("p").toList,
                                                    Creds := ("a\x00b").toList } }).1.env
      credsVar = [] := by
  refine ⟨?_, ?_, ?_, ?_, ?_⟩ <;> rfl

/-- Claim C16: two runs of `loadGcloudConfig` in which the subprocess fails
return the same error, the fixed text "Could not retrieve gcloud configuration",
whatever the texts of the failures; two runs in which its output fails to
decode return the same error, the fixed text "Could not parse gcloud
configuration", whatever the outputs; and `setFromGcloud` (when it runs the
helper) and `GcloudCmdTokenSource.Token` return the error of
`loadGcloudConfig` as it is. -/
theorem helper_error_sanitized :
    (∀ (w1 w2 : World) (cmd1 cmd2 : Str) (args1 args2 : List Str) (e1 e2 : Str),
      w1.Output cmd1 args1 = .error e1 → w2.Output cmd2 args2 = .error e2 →
      (loadGcloudConfig w1 cmd1 args1).2 = (loadGcloudConfig w2 cmd2 args2).2 ∧
      (loadGcloudConfig w1 cmd1 args1).2 =
        .error (Error.Errorf ("Could not retrieve gcloud configuration").toList)) ∧
    (∀ (w1 w2 : World) (cmd1 cmd2 : Str) (args1 args2 : List Str) (o1 o2 e1 e2 : Str),
      w1.Output cmd1 args1 = .ok o1 → w1.Unmarshal o1 = .error e1 →
      w2.Output cmd2 args2 = .ok o2 → w2.Unmarshal o2 = .error e2 →
      (loadGcloudConfig w1 cmd1 args1).2 = (loadGcloudConfig w2 cmd2 args2).2 ∧
      (loadGcloudConfig w1 cmd1 args1).2 =
        .error (Error.Errorf ("Could not parse gcloud configuration").toList)) ∧
    (∀ (w : World) (s : State) (err : Error),
      (s.c.Project = [] ∨ completedCreds s = []) →
      (loadGcloudConfig w (helperCmd w) helperArgs).2 = .error err →
      (setFromGcloud w s).2 = some err) ∧
    (∀ (w : World) (g : GcloudCmdTokenSource) (err : Error),
      (loadGcloudConfig w g.Command g.Args).2 = .error err →
      (GcloudCmdTokenSource.Token w g).2 = .error err) := by
  refine ⟨?_, ?_, ?_, ?_⟩
  · intro w1 w2 cmd1 cmd2 args1 args2 e1 e2 h1 h2
    unfold loadGcloudConfig
    simp only [h1, h2, and_self]
  · intro w1 w2 cmd1 cmd2 args1 args2 o1 o2 e1 e2 h1 h1' h2 h2'
    unfold loadGcloudConfig
    simp only [h1, h1', h2, h2', and_self]
  · intro w s err hcond hl
    rcases setFromGcloud_cases w s with ⟨h1, h2, heq⟩ | ⟨hc, err', hl', heq⟩ | ⟨hc, g, hl', heq⟩
    · rcases hcond with h | h
      · exact absurd h h2
      · exact absurd h h1
    · rw [hl] at hl'
      injection hl' with hl'
      rw [heq, hl']
    · rw [hl] at hl'
      cases hl'
  · intro w g err hl
    unfold GcloudCmdTokenSource.Token
    generalize loadGcloudConfig w g.Command g.Args = r at hl
    obtain ⟨effs, res⟩ := r
    simp only at hl
    subst hl
    rfl

end config

namespace cbt
open Spec bigtable

/-- Claim C17: `decodeColumnOption` returns, for every `decode_columns` value,
the map whose entry for a name is the type (the text after the first colon) of
the last comma-separated element with a colon and that name; its keys are the
names of the elements with a colon, so elements without one are skipped; an
empty or absent value gives the empty map. The elements are the pieces of the
value between commas. `a:b:c,d,e:f,a:z` gives `a -> z`, `e -> f`. -/
theorem decodeColumnOption_spec (m : GoMap) :
    (∀ name, (decodeColumnOption m).find? name =
      lastColType (colElements (m.get ("decode_columns").toList)) name) ∧
    (∀ name, name ∈ (decodeColumnOption m).keys ↔
      ∃ d ∈ colElements (m.get ("decode_columns").toList), ':' ∈ d ∧ colName d = name) ∧
    (m.get ("decode_columns").toList = [] → decodeColumnOption m = []) ∧
    (m.get ("decode_columns").toList ≠ [] →
      List.intercalate [','] (colElements (m.get ("decode_columns").toList)) =
        m.get ("decode_columns").toList ∧
      ∀ d ∈ colElements (m.get ("decode_columns").toList), ',' ∉ d) ∧
    decodeColumnOption [(("decode_columns").toList, ("a:b:c,d,e:f,a:z").toList)] =
      [(("a").toList, ("z").toList), (("e").toList, ("f").toList)] := by
  have hfind : ∀ name, (decodeColumnOption m).find? name =
      lastColType (colElements (m.get ("decode_columns").toList)) name := by
    intro name
    unfold decodeColumnOption colElements
    generalize m.get ("decode_columns").toList = arg
    cases arg with
    | nil => rfl
    | cons x xs =>
      have hlen : ¬ (x :: xs).length = 0 := by simp
      rw [if_neg hlen, if_neg (List.cons_ne_nil x xs), decodeColumnLoop_find]
      cases lastColType (strings.Split (x :: xs) ',') name <;> rfl
  refine ⟨hfind, ?_, ?_, ?_, rfl⟩
  · intro name
    rw [← GoMap.find?_isSome_iff, hfind, lastColType_isSome_iff]
  · intro ha
    unfold decodeColumnOption
    rw [ha]
    rfl
  · intro ha
    unfold colElements
    rw [if_neg ha]
    exact ⟨strings.Split_intercalate _ _, strings.Split_no_sep _ _⟩

end cbt

namespace config
open Spec

/-- Claim C18, amended: the reusing token source returns the cached token
without running anything when that token is valid, which is: its access token
is non-empty and its expiry is the zero time or, moved 10 seconds earlier, is
not before now; otherwise it runs the helper command of its source exactly
once, returns the error of `loadGcloudConfig` as it is (cache unchanged), or
caches and returns the new token. The source `setFromGcloud` builds when the
credentials path is empty holds the token of the helper's snapshot and the
command and arguments the helper was run with. -/
theorem reusing_token_source (w : World) (now : time.Time) (ts : ReuseTokenSource) :
    (ts.t.Valid now = true → ReuseTokenSource.Token w now ts = (ts, [], .ok ts.t)) ∧
    (ts.t.Valid now = false →
      (ReuseTokenSource.Token w now ts).2.1 = [Effect.exec ts.src.Command ts.src.Args] ∧
      (∀ err, (loadGcloudConfig w ts.src.Command ts.src.Args).2 = .error err →
        ReuseTokenSource.Token w now ts =
          (ts, [Effect.exec ts.src.Command ts.src.Args], .error err)) ∧
      (∀ g, (loadGcloudConfig w ts.src.Command ts.src.Args).2 = .ok g →
        ReuseTokenSource.Token w now ts =
          ({ ts with t := g.Credential.Token }, [Effect.exec ts.src.Command ts.src.Args],
            .ok g.Credential.Token))) ∧
    (ts.t.Valid now = true ↔
      ts.t.AccessToken ≠ [] ∧
      (ts.t.Expiry.IsZero = true ∨ (ts.t.Expiry.AddSeconds (-10)).Before now = false)) ∧
    (∀ (s : State) (g : GcloudConfig), completedCreds s = [] →
      (loadGcloudConfig w (helperCmd w) helperArgs).2 = .ok g →
      (setFromGcloud w s).1.c.TokenSource =
        some { t := g.Credential.Token,
               src := { Command := helperCmd w, Args := helperArgs } }) := by
  refine ⟨?_, ?_, Token_Valid_iff _ _, ?_⟩
  · intro hv
    unfold ReuseTokenSource.Token
    rw [if_pos hv]
  · intro hv
    have hv' : ¬ ts.t.Valid now = true := by rw [hv]; exact Bool.false_ne_true
    unfold ReuseTokenSource.Token GcloudCmdTokenSource.Token
    rw [if_neg hv']
    have hfst : (loadGcloudConfig w ts.src.Command ts.src.Args).1 =
        [Effect.exec ts.src.Command ts.src.Args] := rfl
    generalize loadGcloudConfig w ts.src.Command ts.src.Args = r at hfst
    obtain ⟨effs, res⟩ := r
    simp only at hfst
    subst hfst
    cases res with
    | error e =>
      refine ⟨rfl, ?_, ?_⟩
      · intro err herr
        simp only [Except.error.injEq] at herr
        subst herr
        rfl
      · intro g hg
        cases hg
    | ok g0 =>
      refine ⟨rfl, ?_, ?_⟩
      · intro err herr
        cases herr
      · intro g hg
        simp only [Except.ok.injEq] at hg
        subst hg
        rfl
  · intro s g hcr hl
    have hc : (projectStep (credsStep s)).c = { s.c with Creds := completedCreds s } := by
      rw [projectStep_c, credsStep_c]
    rcases setFromGcloud_cases w s with ⟨h1, -, -⟩ | ⟨-, err, hl', -⟩ | ⟨-, g', hl', heq⟩
    · exact absurd hcr h1
    · rw [hl] at hl'; cases hl'
    · rw [hl] at hl'
      simp only [Except.ok.injEq] at hl'
      subst hl'
      rw [heq]
      obtain ⟨-, -, -, hts, -⟩ := adoptStep_c w g
        { projectStep (credsStep s) with
          log := (projectStep (credsStep s)).log ++ [Effect.exec (helperCmd w) helperArgs] }
      simp only at hts ⊢
      rw [hts, hc]
      simp only [hcr, if_true]

/-- Claim C18 as stated fails: at time 1000 a cached token that expires at
1005, strictly in the future, is not returned: the helper is run; and a cached
token with the zero expiry, which is not in the future, is returned without a
run. -/
theorem reusing_token_source_counterexample :
    ((time.Unix 1000).Before (time.Unix 1005) = true ∧
      (ReuseTokenSource.Token
        (helperWorld ("out").toList ⟨("proj").toList, ⟨("new").toList, time.Unix 5000⟩⟩)
        (time.Unix 1000)
        { t := ⟨("tok").toList, ("Bearer").toList, time.Unix 1005⟩,
          src := { Command := ("gcloud").toList, Args := helperArgs } }).2.1 =
        [Effect.exec ("gcloud").toList helperArgs]) ∧
    ((time.Unix 1000).Before time.zero = false ∧
      ReuseTokenSource.Token
        (helperWorld ("out").toList ⟨("proj").toList, ⟨("new").toList, time.Unix 5000⟩⟩)
        (time.Unix 1000)
        { t := ⟨("tok").toList, ("Bearer").toList, time.zero⟩,
          src := { Command := ("gcloud").toList, Args := helperArgs } } =
        ({ t := ⟨("tok").toList, ("Bearer").toList, time.zero⟩,
           src := { Command := ("gcloud").toList, Args := helperArgs } }, [],
          .ok ⟨("tok").toList, ("Bearer").toList, time.zero⟩)) := by
  refine ⟨⟨?_, ?_⟩, ?_, ?_⟩ <;> rfl

end config

namespace cbt
open Spec bigtable

/-- Claim C19: when the option loop of `read` or `lookup` succeeds the map has
no `regex` key, no derived filter is a `RowKeyFilter`, and no row-filter option
of `readOption` is a `RowKeyFilter` or a chain holding one; an argument
`regex=...` makes either command stop with "Unknown option: " and the
argument. -/
theorem regex_filter_unreachable (opts : List Str) (m : GoMap)
    (h : readOpts [] opts = .ok m ∨ lookupOpts [] opts = .ok m) :
    m.find? ("regex").toList = none ∧
    (∀ fils, derivedFilters m = .ok fils → ∀ f ∈ fils, ∀ p, f ≠ Filter.RowKeyFilter p) ∧
    (∀ ro, readOption m = .ok ro → ∀ f ∈ ro.filterMap rowFilter?,
      (∀ p, f ≠ Filter.RowKeyFilter p) ∧
      (∀ sub, f = Filter.ChainFilters sub → ∀ g ∈ sub, ∀ p, g ≠ Filter.RowKeyFilter p)) ∧
    (∀ (client : Client) (env : GoMap) (table key v : Str) (rest : List Str),
      DoRead client env (table :: (("regex=").toList ++ v) :: rest) =
        [Effect.write Stream.osStderr
          (("Unknown option: ").toList ++ (("regex=").toList ++ v) ++ ("\n").toList)] ∧
      DoLookup client env (table :: key :: (("regex=").toList ++ v) :: rest) =
        [Effect.write Stream.ErrStream
          (("Unknown option: ").toList ++ (("regex=").toList ++ v) ++ ("\n").toList)]) := by
  have hnone : m.find? ("regex").toList = none := by
    rcases h with h | h
    · rw [readOpts_find opts m h]
      apply lastVal_eq_none
      intro a ha hk
      have hacc := (parse_ok_iff readAllowed [] opts).1
        ⟨m, by rw [← readOpts_eq_parse]; exact h⟩ a ha
      have hmem := hacc.2
      rw [hk] at hmem
      exact absurd hmem (by decide)
    · rw [lookupOpts_find opts m h]
      apply lastVal_eq_none
      intro a ha hk
      have hacc := (parse_ok_iff lookupAllowed [] opts).1
        ⟨m, by rw [← lookupOpts_eq_parse]; exact h⟩ a ha
      have hmem := hacc.2
      rw [hk] at hmem
      exact absurd hmem (by decide)
  have hget : m.get ("regex").toList = [] := by
    unfold GoMap.get
    rw [hnone]
  have hrank : ∀ fils, derivedFilters m = .ok fils → ∀ f ∈ fils, 1 ≤ rank f ∧ rank f ≤ 4 := by
    intro fils hd f hf
    obtain ⟨v, lo, hi, -, -, -, hfo⟩ := derivedFilters_ok_inv m fils hd
    rw [hfo] at hf
    have := filtersOf_rank _ _ _ _ _ _ f hf
    exact ⟨this.1 hget, this.2⟩
  have hfils : ∀ fils, derivedFilters m = .ok fils → ∀ f ∈ fils, ∀ p,
      f ≠ Filter.RowKeyFilter p := by
    intro fils hd f hf p hp
    have := (hrank fils hd f hf).1
    rw [hp] at this
    simp [rank] at this
  refine ⟨hnone, hfils, ?_, ?_⟩
  · intro ro hro f hf
    obtain ⟨fils, c, hd, -, hro'⟩ := readOption_ok_inv m ro hro
    rw [hro', readOptionsOf_filterMap] at hf
    rcases fils with _ | ⟨f1, _ | ⟨f2, rest⟩⟩
    · simp [combine] at hf
    · have hf1 : f = f1 := by simpa [combine] using hf
      subst hf1
      refine ⟨hfils _ hd f (by simp), ?_⟩
      intro sub hsub
      have := (hrank _ hd f (by simp)).2
      rw [hsub] at this
      simp [rank] at this
    · have hfc : f = Filter.ChainFilters (f1 :: f2 :: rest) := by simpa [combine] using hf
      subst hfc
      refine ⟨fun p hp => (by cases hp), ?_⟩
      intro sub hsub g hg p
      have hsub' : f1 :: f2 :: rest = sub := by
        injection hsub
      rw [← hsub'] at hg
      exact hfils _ hd g hg p
  · intro client env table key v rest
    constructor
    · have hp := parse_first_reject readAllowed [] [] rest (("regex=").toList ++ v)
        (fun x hx => absurd hx (List.not_mem_nil x)) (regex_not_accepted _ (by decide) v)
      unfold DoRead
      simp only [readOpts_eq_parse]
      simp only [List.nil_append] at hp
      simp only [hp, rejectText_regex]
    · have hp := parse_first_reject lookupAllowed [] [] rest (("regex=").toList ++ v)
        (fun x hx => absurd hx (List.not_mem_nil x)) (regex_not_accepted _ (by decide) v)
      unfold DoLookup
      simp only [lookupOpts_eq_parse]
      simp only [List.nil_append] at hp
      simp only [hp, rejectText_regex]

theorem regex_filter_unreachable_witness :
    GoMap.find? [(("family").toList, ("cf").toList)] ("regex").toList = none :=
  (regex_filter_unreachable [("family=cf").toList] [(("family").toList, ("cf").toList)]
    (Or.inl rfl)).1

end cbt

namespace application
open cbt

/-- Claim C20 fails on the code: when the repository (or the client of
`lookup`) succeeds with zero rows, `tbl.Rows[0]` is evaluated and the call
panics with index out of range, in `GetRow` and in `DoLookup`; the other two
cases are as claimed: the error of the repository is returned as it is, and
the first row of a non-empty result is returned. -/
theorem GetRow_zero_rows_out_of_range :
    GetRow emptyRepository ("t").toList ("k").toList = Outcome.indexOutOfRange ∧
    DoLookup sampleClient [] [("t").toList, ("k").toList] =
      [cbt.Effect.Get ("t").toList ("k").toList [], cbt.Effect.indexOutOfRange] ∧
    (∀ (repository : Repository) (table key : Str),
      repository.Get table key = .ok ⟨[]⟩ →
      GetRow repository table key = Outcome.indexOutOfRange) ∧
    (∀ (repository : Repository) (table key : Str) (err : GoError),
      repository.Get table key = .error err →
      GetRow repository table key = Outcome.error err) ∧
    (∀ (repository : Repository) (table key : Str) (row : Row) (rows : List Row),
      repository.Get table key = .ok ⟨row :: rows⟩ →
      GetRow repository table key = Outcome.value row) := by
  refine ⟨rfl, rfl, ?_, ?_, ?_⟩
  · intro repository table key h
    unfold GetRow
    rw [h]
  · intro repository table key err h
    unfold GetRow
    rw [h]
  · intro repository table key row rows h
    unfold GetRow
    rw [h]

end application

end Btcli
